import Mathlib

/-!
Verification of the ws-rs WebSocket library core against its specification.

The Rust sources are shallowly embedded: bytes are `Nat` values below 256,
byte buffers are `List Nat`, machine integers are `Nat` with explicit
`% 2^w` where overflow can occur, and fallible operations return `Except`
or `Option`.  Where the source performs an endianness-dependent
`transmute` (`Frame::close`, the close-code decoding in `read_frames`),
the model fixes the host to little-endian, which is the platform the
library targets and is tested on; the endianness-independent idiom
`transmute(x.to_be())` / `from_be(transmute(bytes))` is modelled by plain
big-endian byte serialization.
-/

set_option maxRecDepth 1000000

namespace WS

/-! ## Definitions -/

/-- Decidable equality for `Except`, so claims about parser results can be
settled by evaluation. -/
instance {e a : Type _} [DecidableEq e] [DecidableEq a] :
    DecidableEq (Except e a) := fun x y =>
  match x, y with
  | .ok u, .ok v =>
    if h : u = v then .isTrue (by rw [h])
    else .isFalse (fun hh => by cases hh; exact h rfl)
  | .error u, .error v =>
    if h : u = v then .isTrue (by rw [h])
    else .isFalse (fun hh => by cases hh; exact h rfl)
  | .ok _, .error _ => .isFalse (fun hh => by cases hh)
  | .error _, .ok _ => .isFalse (fun hh => by cases hh)

/-! ### Byte-order helpers (models of the Rust integer primitives) -/

/-- Big-endian bytes of a `u16` value, i.e. the memory image of
`x.to_be()`; used by `Frame::format` for the 16-bit extended length. -/
def be16Bytes (x : Nat) : List Nat :=
  [x / 256 % 256, x % 256]

/-- Big-endian bytes of a `u64` value, i.e. the memory image of
`x.to_be()`; used by `Frame::format` for the 64-bit extended length. -/
def be64Bytes (x : Nat) : List Nat :=
  [x / 2 ^ 56 % 256, x / 2 ^ 48 % 256, x / 2 ^ 40 % 256, x / 2 ^ 32 % 256,
   x / 2 ^ 24 % 256, x / 2 ^ 16 % 256, x / 2 ^ 8 % 256, x % 256]

/-- Big-endian reading of two bytes: `u16::from_be(transmute([b0, b1]))`. -/
def beRead16 (b0 b1 : Nat) : Nat := b0 * 256 + b1

/-- Big-endian reading of eight bytes: `u64::from_be(transmute(bytes))`. -/
def beRead64 (b0 b1 b2 b3 b4 b5 b6 b7 : Nat) : Nat :=
  b0 * 2 ^ 56 + b1 * 2 ^ 48 + b2 * 2 ^ 40 + b3 * 2 ^ 32 +
  b4 * 2 ^ 24 + b5 * 2 ^ 16 + b6 * 2 ^ 8 + b7

/-- `u16::to_be` / `u16::from_be` on a little-endian host: a byte swap. -/
def swap16 (x : Nat) : Nat := x % 256 * 256 + x / 256 % 256

/-- The memory image of a `u16` on a little-endian host
(`transmute::<u16, [u8; 2]>`). -/
def leU16Bytes (x : Nat) : List Nat := [x % 256, x / 256 % 256]

/-! ### OpCode (src/protocol.rs) -/

/-- `protocol::OpCode`. -/
inductive OpCode where
  | Continue
  | Text
  | Binary
  | Close
  | Ping
  | Pong
  | Bad
deriving DecidableEq, Repr

/-- `impl Into<u8> for OpCode` (the `Bad` arm returns 8 in the source). -/
def OpCode.toU8 : OpCode → Nat
  | .Continue => 0
  | .Text => 1
  | .Binary => 2
  | .Close => 8
  | .Ping => 9
  | .Pong => 10
  | .Bad => 8

/-- `impl From<u8> for OpCode`. -/
def OpCode.fromU8 (byte : Nat) : OpCode :=
  if byte = 0 then .Continue
  else if byte = 1 then .Text
  else if byte = 2 then .Binary
  else if byte = 8 then .Close
  else if byte = 9 then .Ping
  else if byte = 10 then .Pong
  else .Bad

/-- Close/Ping/Pong, the control opcodes. -/
def OpCode.isControl : OpCode → Bool
  | .Close | .Ping | .Pong => true
  | _ => false

/-! ### CloseCode (src/protocol.rs) -/

/-- `protocol::CloseCode`.  `Other` carries a `u16`. -/
inductive CloseCode where
  | Normal
  | Away
  | Protocol
  | Unsupported
  | Status
  | Abnormal
  | Invalid
  | Policy
  | Size
  | Extension
  | Error
  | Restart
  | Again
  | Tls
  | Empty
  | Other (code : Nat)
deriving DecidableEq, Repr

/-- The numeric value each variant matches to in `Into<u16> for CloseCode`
(the value before the final `to_be` byte swap). -/
def CloseCode.val : CloseCode → Nat
  | .Normal => 1000
  | .Away => 1001
  | .Protocol => 1002
  | .Unsupported => 1003
  | .Status => 1005
  | .Abnormal => 1006
  | .Invalid => 1007
  | .Policy => 1008
  | .Size => 1009
  | .Extension => 1010
  | .Error => 1011
  | .Restart => 1012
  | .Again => 1013
  | .Tls => 1015
  | .Empty => 0
  | .Other code => code % 65536

/-- `impl Into<u16> for CloseCode`: the matched value followed by
`val.to_be()`, which swaps the bytes on a little-endian host. -/
def CloseCode.intoU16 (c : CloseCode) : Nat := swap16 c.val

/-- The `match` table of `impl From<u16> for CloseCode`, applied to the
value obtained after that impl's own `u16::from_be` conversion. -/
def closeCodeFromRaw (v : Nat) : CloseCode :=
  if v = 1000 then .Normal
  else if v = 1001 then .Away
  else if v = 1002 then .Protocol
  else if v = 1003 then .Unsupported
  else if v = 1005 then .Status
  else if v = 1006 then .Abnormal
  else if v = 1007 then .Invalid
  else if v = 1008 then .Policy
  else if v = 1009 then .Size
  else if v = 1010 then .Extension
  else if v = 1011 then .Error
  else if v = 1012 then .Restart
  else if v = 1013 then .Again
  else if v = 1015 then .Tls
  else if v = 0 then .Empty
  else .Other v

/-- `impl From<u16> for CloseCode`: `from_be` (a swap on the little-endian
host) followed by the match table. -/
def closeCodeFromBe (be : Nat) : CloseCode := closeCodeFromRaw (swap16 be)

/-! ### Frame (src/frame.rs) -/

/-- `frame::Frame`.  The mask, when present, is a list of four bytes. -/
structure Frame where
  finished : Bool
  rsv1 : Bool
  rsv2 : Bool
  rsv3 : Bool
  opcode : OpCode
  length : Nat
  mask : Option (List Nat)
  payload : List Nat
  header_length : Nat
deriving DecidableEq, Repr

/-- `impl Default for Frame`. -/
def frameDefault : Frame :=
  { finished := true
    rsv1 := false
    rsv2 := false
    rsv3 := false
    opcode := .Close
    length := 0
    mask := none
    payload := []
    header_length := 0 }

/-- `apply_mask`: XOR the buffer with the four mask bytes cycled.
The counter `i` tracks the position within the cycle. -/
def applyMaskFrom (mask : List Nat) (i : Nat) : List Nat → List Nat
  | [] => []
  | b :: rest => (b ^^^ mask.getD (i % 4) 0) :: applyMaskFrom mask (i + 1) rest

/-- `apply_mask` starting at the beginning of the buffer. -/
def applyMask (buf mask : List Nat) : List Nat := applyMaskFrom mask 0 buf

/-- `Frame::is_masked`. -/
def Frame.isMasked (f : Frame) : Bool := f.mask.isSome

/-- `Frame::len`: payload length plus header length. -/
def Frame.byteLen (f : Frame) : Nat := f.length + f.header_length

/-- `Frame::into_data`: unmask the payload if a mask is present. -/
def Frame.intoData (f : Frame) : List Nat :=
  match f.mask with
  | some m => applyMask f.payload m
  | none => f.payload

/-- `Frame::message`. -/
def Frame.message (data : List Nat) (code : OpCode) (finished : Bool) : Frame :=
  { frameDefault with
      finished := finished
      opcode := code
      length := data.length
      payload := data }

/-- `Frame::ping`. -/
def Frame.ping (data : List Nat) : Frame :=
  { frameDefault with
      opcode := .Ping
      length := data.length
      payload := data }

/-- `Frame::pong`. -/
def Frame.pong (data : List Nat) : Frame :=
  { frameDefault with
      opcode := .Pong
      length := data.length
      payload := data }

/-- `Frame::close` with the reason already UTF-8 encoded to bytes.
The source computes `raw = transmute(u.to_be())` where `u` is already the
byte-swapped value produced by `Into<u16> for CloseCode`; on a
little-endian host the two swaps cancel and `raw` holds the native
little-endian bytes of the numeric code. -/
def Frame.close (code : CloseCode) (reason : List Nat) : Frame :=
  let u := code.intoU16
  let raw := leU16Bytes (swap16 u)
  let payload := if code = .Empty then [] else raw ++ reason
  { frameDefault with
      length := payload.length
      payload := payload }

/-! ### Frame serialization (Frame::format) -/

/-- First header byte: fin, rsv1-3 and the opcode nibble, assembled with
the same sequence of `|=` updates as the source. -/
def mkByte1 (fin r1 r2 r3 : Bool) (code : Nat) : Nat :=
  let one : Nat := 0
  let one := if fin then one ||| 128 else one
  let one := if r1 then one ||| 64 else one
  let one := if r2 then one ||| 32 else one
  let one := if r3 then one ||| 16 else one
  one ||| code

/-- Second header byte: mask bit ored with the 7-bit length field. -/
def mkByte2 (masked : Bool) (lenBits : Nat) : Nat :=
  let two : Nat := 0
  let two := if masked then two ||| 128 else two
  two ||| lenBits

/-- The header bytes written by `Frame::format`: the two fixed bytes plus
the 16- or 64-bit extended length when the payload length demands it. -/
def formatHeader (f : Frame) : List Nat :=
  let one := mkByte1 f.finished f.rsv1 f.rsv2 f.rsv3 f.opcode.toU8
  if f.length < 126 then
    [one, mkByte2 f.isMasked f.length]
  else if f.length ≤ 65535 then
    [one, mkByte2 f.isMasked 126] ++ be16Bytes f.length
  else
    [one, mkByte2 f.isMasked 127] ++ be64Bytes f.length

/-- `Frame::format`: header, then for a masked frame the mask bytes and
the payload XORed with the mask, otherwise the payload as is. -/
def Frame.format (f : Frame) : List Nat :=
  formatHeader f ++
    match f.mask with
    | some m => m ++ applyMask f.payload m
    | none => f.payload

/-! ### Frame parsing (Frame::parse)

`Frame::parse` reads from a cursor; the model receives the bytes from the
cursor position onward, with the `*size` argument equal to their count
(as in `Connection::read_frames`).  `Ok(None)`-with-cursor-reset becomes
`Except.ok none`, and protocol errors become `Except.error`. -/

/-- The error kind raised by the frame codec (`Kind::Protocol`). -/
inductive ParseErr where
  | protocol
deriving DecidableEq, Repr

/-- Tail of `Frame::parse` after the payload length has been read:
the control-frame length check, the mask bytes, the buffered-size check
and the final frame assembly.  `total` is the `*size` argument and
`rest` the bytes following the length field. -/
def parseRest (finished r1 r2 r3 : Bool) (opcode : OpCode) (masked : Bool)
    (length headerLength total : Nat) (rest : List Nat) :
    Except ParseErr (Option Frame) :=
  if opcode.isControl ∧ length > 125 then .error .protocol
  else
    let withMask : Option (Option (List Nat) × Nat × List Nat) :=
      if masked then
        match rest with
        | m0 :: m1 :: m2 :: m3 :: rest2 =>
          some (some [m0, m1, m2, m3], headerLength + 4, rest2)
        | _ => none
      else some (none, headerLength, rest)
    match withMask with
    | none => .ok none
    | some (mask, headerLength, rest2) =>
      if total < length + headerLength then .ok none
      else
        .ok (some
          { finished := finished
            rsv1 := r1
            rsv2 := r2
            rsv3 := r3
            opcode := opcode
            length := length
            mask := mask
            payload := rest2.take length
            header_length := headerLength })

/-- `Frame::parse` on the bytes available at the cursor. -/
def parseFrame (buf : List Nat) : Except ParseErr (Option Frame) :=
  match buf with
  | b0 :: b1 :: rest =>
    let finished := b0 &&& 128 != 0
    let r1 := b0 &&& 64 != 0
    let r2 := b0 &&& 32 != 0
    let r3 := b0 &&& 16 != 0
    let opcode := OpCode.fromU8 (b0 &&& 15)
    if opcode = .Bad then .error .protocol
    else
      let masked := b1 &&& 128 != 0
      let lenBits := b1 &&& 127
      if lenBits = 126 then
        match rest with
        | l0 :: l1 :: rest2 =>
          parseRest finished r1 r2 r3 opcode masked (beRead16 l0 l1) 4
            buf.length rest2
        | _ => .ok none
      else if lenBits = 127 then
        match rest with
        | l0 :: l1 :: l2 :: l3 :: l4 :: l5 :: l6 :: l7 :: rest2 =>
          parseRest finished r1 r2 r3 opcode masked
            (beRead64 l0 l1 l2 l3 l4 l5 l6 l7) 10 buf.length rest2
        | _ => .ok none
      else
        parseRest finished r1 r2 r3 opcode masked lenBits 2 buf.length rest
  | _ => .ok none

/-! ### Helper lemmas for the frame codec -/

/-- The payload stored by `Frame::parse`: the wire payload, which for a
masked frame is the application data still XORed with the mask. -/
def wirePayload (f : Frame) : List Nat :=
  match f.mask with
  | some m => applyMask f.payload m
  | none => f.payload

/-- The header length `Frame::parse` records for a re-parsed frame. -/
def parsedHeaderLength (f : Frame) : Nat :=
  2 + (if f.length < 126 then 0 else if f.length ≤ 65535 then 2 else 8) +
    (if f.mask.isSome then 4 else 0)

/-! ### Claim C4: close-code validation in Connection::read_frames -/

/-- Modelled from the spec: strict UTF-8 validity as checked by
`std::str::from_utf8` (an external library call; the spec says the close
reason is "UTF-8-decode[d] if present").  The ranges follow RFC 3629. -/
def utf8Valid : List Nat → Bool
  | [] => true
  | b :: rest =>
    if b ≤ 0x7F then utf8Valid rest
    else if 0xC2 ≤ b ∧ b ≤ 0xDF then
      match rest with
      | c1 :: rest2 =>
        if 0x80 ≤ c1 ∧ c1 ≤ 0xBF then utf8Valid rest2 else false
      | [] => false
    else if 0xE0 ≤ b ∧ b ≤ 0xEF then
      match rest with
      | c1 :: c2 :: rest2 =>
        if (if b = 0xE0 then 0xA0 ≤ c1 ∧ c1 ≤ 0xBF
            else if b = 0xED then 0x80 ≤ c1 ∧ c1 ≤ 0x9F
            else 0x80 ≤ c1 ∧ c1 ≤ 0xBF) ∧
           (0x80 ≤ c2 ∧ c2 ≤ 0xBF) then utf8Valid rest2 else false
      | _ => false
    else if 0xF0 ≤ b ∧ b ≤ 0xF4 then
      match rest with
      | c1 :: c2 :: c3 :: rest2 =>
        if (if b = 0xF0 then 0x90 ≤ c1 ∧ c1 ≤ 0xBF
            else if b = 0xF4 then 0x80 ≤ c1 ∧ c1 ≤ 0x8F
            else 0x80 ≤ c1 ∧ c1 ≤ 0xBF) ∧
           (0x80 ≤ c2 ∧ c2 ≤ 0xBF) ∧ (0x80 ≤ c3 ∧ c3 ≤ 0xBF) then
          utf8Valid rest2
        else false
      | _ => false
    else false

/-- The reserved-code test applied to `CloseCode::Other` in
`read_frames` (codes below 1000, at or above 5000, and the listed
autobahn exclusions). -/
def otherCodeInvalid : CloseCode → Bool
  | .Other code =>
    decide (code < 1000) || decide (code ≥ 5000) || decide (code = 1004) ||
    decide (code = 1014) || decide (code = 1016) || decide (code = 1100) ||
    decide (code = 2000) || decide (code = 2999)
  | _ => false

/-- The chain of `if let` tests on the synthetic close codes in
`read_frames`. -/
def isSyntheticRejected (named : CloseCode) : Bool :=
  decide (named = .Abnormal) || decide (named = .Status) ||
  decide (named = .Restart) || decide (named = .Again) ||
  decide (named = .Tls)

/-- The action `read_frames` takes for a final Close frame when the
connection is not already closing (with the default handler, which
passes the frame through). -/
inductive CloseAction where
  | protocolError
  | reply (code : CloseCode)
deriving DecidableEq, Repr

/-- The Close arm of `Connection::read_frames`: read a 2-byte close code
(little-endian host `transmute`, then two cancelling `from_be` swaps),
reject reserved `Other` codes and the synthetic variants with a Protocol
error, otherwise mirror the code back (or `Invalid` when the reason
bytes are not UTF-8); a payload shorter than two bytes is answered with
an empty close frame. -/
def processClose (payload : List Nat) : CloseAction :=
  match payload with
  | b0 :: b1 :: rest =>
    let codeBe := b0 + 256 * b1
    let named := closeCodeFromBe (swap16 codeBe)
    if otherCodeInvalid named then .protocolError
    else if isSyntheticRejected named then .protocolError
    else if utf8Valid rest then .reply named
    else .reply .Invalid
  | _ => .reply .Empty

/-- The non-connecting arm of `Connection::error`: the close code sent
for each error kind. -/
inductive ErrKind where
  | internal
  | capacity
  | protocol
  | encoding
deriving DecidableEq, Repr

/-- `Connection::error` (Open or Closing state): the code passed to
`send_close` per error kind. -/
def errorResponseCode : ErrKind → CloseCode
  | .internal => .Error
  | .capacity => .Size
  | .protocol => .Protocol
  | .encoding => .Invalid

/-- The set of decoded close-code values the connection rejects
(the claim's list, amended to exclude 0, which the code maps to
`CloseCode::Empty` and mirrors). -/
def rejectedCode (v : Nat) : Prop :=
  (v < 1000 ∧ v ≠ 0) ∨ 5000 ≤ v ∨ v = 1004 ∨ v = 1014 ∨ v = 1016 ∨
  v = 1100 ∨ v = 2000 ∨ v = 2999 ∨ v = 1005 ∨ v = 1006 ∨ v = 1012 ∨
  v = 1013 ∨ v = 1015

instance (v : Nat) : Decidable (rejectedCode v) :=
  show Decidable ((v < 1000 ∧ v ≠ 0) ∨ 5000 ≤ v ∨ v = 1004 ∨ v = 1014 ∨
    v = 1016 ∨ v = 1100 ∨ v = 2000 ∨ v = 2999 ∨ v = 1005 ∨ v = 1006 ∨
    v = 1012 ∨ v = 1013 ∨ v = 1015) from inferInstance

/-! ### Claim C5: outbound message fragmentation
(Connection::send_message) -/

/-- `slice::chunks` with an explicit fuel (the list length), so the
function stays structurally recursive and computable.  For a positive
chunk size the fuel is never exhausted.  (Rust panics on chunk size 0;
the claims only concern positive `fragment_size`.) -/
def chunksF : Nat → Nat → List Nat → List (List Nat)
  | _, _, [] => []
  | 0, _, _ => []
  | fuel + 1, n, x :: xs =>
    (x :: xs).take n :: chunksF fuel n ((x :: xs).drop n)

/-- `data.chunks(n)` for a Rust slice. -/
def rustChunks (xs : List Nat) (n : Nat) : List (List Nat) :=
  chunksF xs.length n xs

/-- The `while let` loop of `send_message`: every chunk but the last
becomes a non-final Continue frame, the last a final Continue frame. -/
def continueFrames : List (List Nat) → List Frame
  | [] => []
  | [c] => [Frame.message c .Continue true]
  | c :: rest => Frame.message c .Continue false :: continueFrames rest

/-- `Connection::send_message`: fragment the message when its length
exceeds `fragment_size`, otherwise emit a single final frame. -/
def sendMessageFrames (fragment_size : Nat) (op : OpCode)
    (data : List Nat) : List Frame :=
  if data.length > fragment_size then
    match rustChunks data fragment_size with
    | c0 :: rest => Frame.message c0 op false :: continueFrames rest
    | [] => []
  else
    [Frame.message data op true]

/-! ### Claim C6: endpoint masking discipline
(Connection::buffer_frame) -/

/-- `connection::state::Endpoint`. -/
inductive Endpoint where
  | Client
  | Server
deriving DecidableEq, Repr

/-- `Connection::buffer_frame` up to the point the frame is formatted
into the output buffer: a client endpoint calls `frame.mask()` with a
freshly generated 4-byte mask (passed here as `m`), a server endpoint
leaves the frame untouched. -/
def bufferedFrame (endpoint : Endpoint) (m : List Nat) (f : Frame) :
    Frame :=
  match endpoint with
  | .Client => { f with mask := some m }
  | .Server => f

/-! ### Claim C7: Sec-WebSocket-Accept hashing
(handshake.rs: hash_key and encode_base64) -/

/-- The `BASE64` alphabet byte string from src/handshake.rs
("ABCDEFGHIJKLMNOPQRSTUVWXYZabcdefghijklmnopqrstuvwxyz0123456789+/"
as ASCII codes). -/
def base64Table : List Nat :=
  [65, 66, 67, 68, 69, 70, 71, 72, 73, 74, 75, 76, 77,
   78, 79, 80, 81, 82, 83, 84, 85, 86, 87, 88, 89, 90,
   97, 98, 99, 100, 101, 102, 103, 104, 105, 106, 107, 108, 109,
   110, 111, 112, 113, 114, 115, 116, 117, 118, 119, 120, 121, 122,
   48, 49, 50, 51, 52, 53, 54, 55, 56, 57, 43, 47]

/-- `BASE64[val as usize]`. -/
def enc (val : Nat) : Nat := base64Table.getD val 0

/-- One iteration of the `while let` loop in `encode_base64`: a 24-bit
group emitting four alphabet bytes. -/
def mainGroups : List Nat → List Nat
  | a :: b :: c :: rest =>
    enc ((a <<< 16 ||| b <<< 8 ||| c) >>> 18 &&& 63) ::
    enc ((a <<< 16 ||| b <<< 8 ||| c) >>> 12 &&& 63) ::
    enc ((a <<< 16 ||| b <<< 8 ||| c) >>> 6 &&& 63) ::
    enc ((a <<< 16 ||| b <<< 8 ||| c) &&& 63) :: mainGroups rest
  | _ => []

/-- `handshake::encode_base64`: the full 3-byte groups, then the
`mod_len` tail, with the unwritten cells of the pre-filled buffer
remaining ASCII 61 (the pad character). -/
def encode_base64 (data : List Nat) : List Nat :=
  let len := data.length
  let modLen := len % 3
  let full := mainGroups (data.take (len - modLen))
  let tail :=
    if modLen = 1 then
      [enc ((data.getD (len - 1) 0 <<< 16) >>> 18 &&& 63),
       enc ((data.getD (len - 1) 0 <<< 16) >>> 12 &&& 63)]
    else if modLen = 2 then
      [enc ((data.getD (len - 2) 0 <<< 16 ||| data.getD (len - 1) 0 <<< 8)
          >>> 18 &&& 63),
       enc ((data.getD (len - 2) 0 <<< 16 ||| data.getD (len - 1) 0 <<< 8)
          >>> 12 &&& 63),
       enc ((data.getD (len - 2) 0 <<< 16 ||| data.getD (len - 1) 0 <<< 8)
          >>> 6 &&& 63)]
    else []
  full ++ tail ++
    List.replicate ((len + 2) / 3 * 4 - (full ++ tail).length) 61

/-- RFC 4648 standard base64, written as the textbook recursion: each
3-byte group yields four alphabet characters, a trailing 1- or 2-byte
group is padded with `=` (ASCII 61). -/
def base64Spec : List Nat → List Nat
  | [] => []
  | [a] => [enc (a >>> 2), enc ((a &&& 3) <<< 4), 61, 61]
  | [a, b] => [enc (a >>> 2), enc ((a &&& 3) <<< 4 ||| b >>> 4),
               enc ((b &&& 15) <<< 2), 61]
  | a :: b :: c :: rest =>
    enc (a >>> 2) :: enc ((a &&& 3) <<< 4 ||| b >>> 4) ::
    enc ((b &&& 15) <<< 2 ||| c >>> 6) :: enc (c &&& 63) ::
    base64Spec rest

/-- Modelled from the spec: 32-bit left rotation of the external `sha1`
crate. -/
def rotl32 (n x : Nat) : Nat := ((x <<< n) ||| (x >>> (32 - n))) % 2 ^ 32

/-- Modelled from the spec: big-endian bytes of a 32-bit word. -/
def be32Bytes (x : Nat) : List Nat :=
  [x / 2 ^ 24 % 256, x / 2 ^ 16 % 256, x / 2 ^ 8 % 256, x % 256]

/-- Modelled from the spec: group bytes into big-endian 32-bit words. -/
def toWords32 : List Nat → List Nat
  | a :: b :: c :: d :: rest =>
    (a * 2 ^ 24 + b * 2 ^ 16 + c * 2 ^ 8 + d) :: toWords32 rest
  | _ => []

/-- Modelled from the spec: SHA-1 padding (0x80, zeros to 56 mod 64,
then the 64-bit big-endian bit length). -/
def sha1Pad (msg : List Nat) : List Nat :=
  msg ++ [128] ++ List.replicate ((119 - msg.length % 64) % 64) 0 ++
    be64Bytes (msg.length * 8)

/-- Modelled from the spec: one step of the SHA-1 message-schedule
extension, `w[t] = rotl1 (w[t-3] xor w[t-8] xor w[t-14] xor w[t-16])`. -/
def sha1ExtendStep (w : List Nat) : List Nat :=
  w ++ [rotl32 1 (w.getD (w.length - 3) 0 ^^^ w.getD (w.length - 8) 0 ^^^
    w.getD (w.length - 14) 0 ^^^ w.getD (w.length - 16) 0)]

/-- Modelled from the spec: the 80-word SHA-1 message schedule. -/
def sha1Schedule (ws : List Nat) : List Nat :=
  Nat.repeat sha1ExtendStep 64 ws

/-- Modelled from the spec: the SHA-1 round function `f_t`. -/
def sha1F (t b c d : Nat) : Nat :=
  if t < 20 then (b &&& c) ||| ((4294967295 ^^^ b) &&& d)
  else if t < 40 then b ^^^ c ^^^ d
  else if t < 60 then (b &&& c) ||| (b &&& d) ||| (c &&& d)
  else b ^^^ c ^^^ d

/-- Modelled from the spec: the SHA-1 round constant `K_t`. -/
def sha1K (t : Nat) : Nat :=
  if t < 20 then 1518500249
  else if t < 40 then 1859775393
  else if t < 60 then 2400959708
  else 3395469782

/-- Modelled from the spec: one SHA-1 round on the five-word state. -/
def sha1Round (st : Nat × Nat × Nat × Nat × Nat) (tw : Nat × Nat) :
    Nat × Nat × Nat × Nat × Nat :=
  let (a, b, c, d, e) := st
  let (t, w) := tw
  ((rotl32 5 a + sha1F t b c d + e + sha1K t + w) % 2 ^ 32,
    a, rotl32 30 b, c, d)

/-- Modelled from the spec: SHA-1 compression of one 64-byte block. -/
def sha1Block (h : Nat × Nat × Nat × Nat × Nat) (block : List Nat) :
    Nat × Nat × Nat × Nat × Nat :=
  let ws := sha1Schedule (toWords32 block)
  let r := ((List.range 80).zip ws).foldl sha1Round h
  ((h.1 + r.1) % 2 ^ 32, (h.2.1 + r.2.1) % 2 ^ 32,
    (h.2.2.1 + r.2.2.1) % 2 ^ 32, (h.2.2.2.1 + r.2.2.2.1) % 2 ^ 32,
    (h.2.2.2.2 + r.2.2.2.2) % 2 ^ 32)

/-- Modelled from the spec: the full SHA-1 digest (20 bytes) of a byte
string, as computed by the external `sha1` crate used by `hash_key`. -/
def sha1 (msg : List Nat) : List Nat :=
  let h := (rustChunks (sha1Pad msg) 64).foldl sha1Block
    (1732584193, 4023233417, 2562383102, 271733878, 3285377520)
  be32Bytes h.1 ++ be32Bytes h.2.1 ++ be32Bytes h.2.2.1 ++
    be32Bytes h.2.2.2.1 ++ be32Bytes h.2.2.2.2

/-- The `WS_GUID` constant "258EAFA5-E914-47DA-95CA-C5AB0DC85B11" from
src/handshake.rs, as ASCII bytes. -/
def wsGuidBytes : List Nat :=
  [50, 53, 56, 69, 65, 70, 65, 53, 45, 69, 57, 49, 52, 45, 52, 55, 68,
   65, 45, 57, 53, 67, 65, 45, 67, 53, 65, 66, 48, 68, 67, 56, 53, 66,
   49, 49]

/-- `handshake::hash_key`: SHA-1 over the key followed by the GUID,
then base64. -/
def hash_key (key : List Nat) : List Nat :=
  encode_base64 (sha1 (key ++ wsGuidBytes))

/-- The sample nonce "dGhlIHNhbXBsZSBub25jZQ==" as ASCII bytes. -/
def sampleNonce : List Nat :=
  [100, 71, 104, 108, 73, 72, 78, 104, 98, 88, 66, 115, 90, 83, 66,
   117, 98, 50, 53, 106, 90, 81, 61, 61]

/-- "s3pPLMBiTxaQ9kYGzzhZRbK+xOo=" as ASCII bytes. -/
def sampleAccept : List Nat :=
  [115, 51, 112, 80, 76, 77, 66, 105, 84, 120, 97, 81, 57, 107, 89,
   71, 122, 122, 104, 90, 82, 98, 75, 43, 120, 79, 111, 61]

/-! ### Claim C9: stale-command dropping in the event loop
(io.rs: Handler::handle_queue, communication.rs: Sender) -/

/-- The per-connection send variants of `communication::Signal`
(`Message`, `Close`, `Ping`, `Pong`); a `Message` is represented by its
opcode and payload bytes, as `send_message` immediately takes
`msg.opcode()` and `msg.into_data()`.  The remaining variants
(`Connect`, `Shutdown`, `Timeout`, `Cancel`) take different paths in
`handle_queue` and are outside claim C9. -/
inductive Signal where
  | message (code : OpCode) (data : List Nat)
  | close (code : CloseCode) (reason : List Nat)
  | ping (data : List Nat)
  | pong (data : List Nat)

/-- A `connection::Connection` as far as `handle_queue`'s send commands
observe it: its generation stamp `connection_id`, its endpoint kind and
settings, its closing state, and the frames appended to its output
buffer.  `maskGen` stands for the fresh mask that `generate_mask()`
would produce for the next client-side frame.
Modelled from the spec: the `connection_id` generation stamp (the
checked-in `communication.rs` predates the stamp that `io.rs` reads
via `cmd.connection_id()`). -/
structure Conn where
  connectionId : Nat
  kind : Endpoint
  fragSize : Nat
  maskGen : List Nat
  closing : Bool
  outFrames : List Frame
deriving Repr

/-- `communication::Command`: a target token plus a signal.
Modelled from the spec: the `connection_id` stamp field. -/
structure Command where
  token : Nat
  connectionId : Nat
  signal : Signal

/-- `communication::Sender` as relevant here: its token and the
generation stamp it was created with.
Modelled from the spec: the `connection_id` stamp field. -/
structure Sender where
  token : Nat
  connectionId : Nat

/-- Sending through a `Sender` queues a `Command` stamped with the
`connection_id` the handle was created with. -/
def Sender.sendCmd (s : Sender) (sig : Signal) : Command :=
  { token := s.token, connectionId := s.connectionId, signal := sig }

/-- `Connection::buffer_frame`: mask the frame on a client endpoint,
then append it to the output buffer. -/
def bufferFrameConn (c : Conn) (f : Frame) : Conn :=
  { c with outFrames := c.outFrames ++ [bufferedFrame c.kind c.maskGen f] }

/-- The effect of `send_message` / `send_close` / `send_ping` /
`send_pong` on the connection, via `buffer_frame`; `send_close` also
moves the state to `Closing`, and `send_pong` is a no-op while
closing. -/
def applySignal (c : Conn) : Signal → Conn
  | .message code data =>
    (sendMessageFrames c.fragSize code data).foldl bufferFrameConn c
  | .close code reason =>
    { bufferFrameConn c (Frame.close code reason) with closing := true }
  | .ping data => bufferFrameConn c (Frame.ping data)
  | .pong data =>
    if c.closing then c else bufferFrameConn c (Frame.pong data)

/-- The per-connection token arm of `io::Handler::handle_queue`: look
the token up in the connection slab; if a connection is resident and
its `connection_id` matches the command's stamp, deliver the signal,
otherwise drop the command silently (the source only emits a trace
line). -/
def handleQueue (conns : List (Option Conn)) (cmd : Command) :
    List (Option Conn) :=
  match conns.getD cmd.token none with
  | some conn =>
    if conn.connectionId = cmd.connectionId then
      conns.set cmd.token (some (applySignal conn cmd.signal))
    else conns
  | none => conns

/-! ### Claim C10: the capped output buffer never exceeds its maximum
(capped_buffer.rs) -/

/-- `capped_buffer::CappedBuffer`: a byte vector with a hard length
limit `max`.  The `capacity` argument of `CappedBuffer::new` (clamped
to `max` there) only pre-allocates the vector and does not affect the
stored bytes, so the model keeps just the contents and the limit. -/
structure CappedBuffer where
  buf : List Nat
  max : Nat
deriving Repr

/-- `CappedBuffer::new`: an empty buffer with limit `max`. -/
def CappedBuffer.new (capacity mx : Nat) : CappedBuffer :=
  { buf := [], max := mx }

/-- `CappedBuffer::remaining`: `self.max - self.buf.len()`. -/
def CappedBuffer.remaining (c : CappedBuffer) : Nat :=
  c.max - c.buf.length

/-- `CappedBuffer::shift`: clear when shifting at least the whole
length, otherwise drop the first `shift` bytes (the overlapping
`ptr::copy` plus `set_len`). -/
def CappedBuffer.shift (c : CappedBuffer) (shift : Nat) : CappedBuffer :=
  if shift ≥ c.buf.length then { c with buf := [] }
  else { c with buf := c.buf.drop shift }

/-- `io::Write::write` for `CappedBuffer`: truncate the input to the
remaining space, append it, and return the number of bytes written. -/
def CappedBuffer.write (c : CappedBuffer) (data : List Nat) :
    CappedBuffer × Nat :=
  let data2 := if data.length > c.remaining
    then data.take c.remaining else data
  ({ c with buf := c.buf ++ data2 }, data2.length)

/-- `io::Write::write_all` for `CappedBuffer`: append if the input
fits in the remaining space, otherwise fail without touching the
buffer. -/
def CappedBuffer.writeAll (c : CappedBuffer) (data : List Nat) :
    Except Unit CappedBuffer :=
  if data.length ≤ c.remaining then .ok { c with buf := c.buf ++ data }
  else .error ()

/-- One client-visible operation on a `CappedBuffer`. -/
inductive BufOp where
  | write (data : List Nat)
  | writeAll (data : List Nat)
  | shift (n : Nat)

/-- Apply one operation; a failed `write_all` leaves the buffer as it
was. -/
def applyOp (c : CappedBuffer) : BufOp → CappedBuffer
  | .write data => (c.write data).1
  | .writeAll data =>
    match c.writeAll data with
    | .ok c2 => c2
    | .error _ => c
  | .shift n => c.shift n

/-- Apply a sequence of operations left to right. -/
def applyOps (c : CappedBuffer) (ops : List BufOp) : CappedBuffer :=
  ops.foldl applyOp c


/-! ## Theorems -/

/-! ### Helper lemmas for the frame codec -/

theorem applyMaskFrom_length (mask : List Nat) (i : Nat) (buf : List Nat) :
    (applyMaskFrom mask i buf).length = buf.length := by
  induction buf generalizing i with
  | nil => rfl
  | cons b rest ih => simp [applyMaskFrom, ih]

theorem applyMask_length (buf mask : List Nat) :
    (applyMask buf mask).length = buf.length :=
  applyMaskFrom_length mask 0 buf

theorem applyMaskFrom_applyMaskFrom (mask : List Nat) (i : Nat) (buf : List Nat) :
    applyMaskFrom mask i (applyMaskFrom mask i buf) = buf := by
  induction buf generalizing i with
  | nil => rfl
  | cons b rest ih =>
    simp [applyMaskFrom, ih, Nat.xor_cancel_right]

theorem applyMask_applyMask (buf mask : List Nat) :
    applyMask (applyMask buf mask) mask = buf :=
  applyMaskFrom_applyMaskFrom mask 0 buf

theorem mkByte1_spec (fin r1 r2 r3 : Bool) (op : OpCode) (h : op ≠ .Bad) :
    (mkByte1 fin r1 r2 r3 op.toU8 &&& 128 != 0) = fin ∧
    (mkByte1 fin r1 r2 r3 op.toU8 &&& 64 != 0) = r1 ∧
    (mkByte1 fin r1 r2 r3 op.toU8 &&& 32 != 0) = r2 ∧
    (mkByte1 fin r1 r2 r3 op.toU8 &&& 16 != 0) = r3 ∧
    OpCode.fromU8 (mkByte1 fin r1 r2 r3 op.toU8 &&& 15) = op ∧
    mkByte1 fin r1 r2 r3 op.toU8 < 256 := by
  revert h
  cases op <;> cases fin <;> cases r1 <;> cases r2 <;> cases r3 <;> decide

theorem mkByte2_spec : ∀ L < 128, ∀ m : Bool,
    (mkByte2 m L &&& 128 != 0) = m ∧ mkByte2 m L &&& 127 = L ∧
    mkByte2 m L < 256 := by decide

theorem beRead16_be16Bytes (L : Nat) (h : L ≤ 65535) :
    beRead16 (L / 256 % 256) (L % 256) = L := by
  unfold beRead16; omega

theorem beRead64_be64Bytes (L : Nat) (h : L < 2 ^ 64) :
    beRead64 (L / 2 ^ 56 % 256) (L / 2 ^ 48 % 256) (L / 2 ^ 40 % 256)
      (L / 2 ^ 32 % 256) (L / 2 ^ 24 % 256) (L / 2 ^ 16 % 256)
      (L / 2 ^ 8 % 256) (L % 256) = L := by
  unfold beRead64; omega

/-- Round trip, serialization first: parsing the output of
`Frame::format` succeeds and reproduces the frame, except that the
payload comes back in wire (masked) form and the header length is the
one just parsed. -/
theorem parseFrame_format (f : Frame)
    (hop : f.opcode ≠ .Bad)
    (hlen : f.length = f.payload.length)
    (h64 : f.length < 2 ^ 64)
    (hctrl : f.opcode.isControl = true → f.length ≤ 125)
    (hmask : ∀ m, f.mask = some m → m.length = 4) :
    parseFrame f.format = .ok (some
      { finished := f.finished
        rsv1 := f.rsv1
        rsv2 := f.rsv2
        rsv3 := f.rsv3
        opcode := f.opcode
        length := f.length
        mask := f.mask
        payload := wirePayload f
        header_length := parsedHeaderLength f }) := by
  obtain ⟨fin, r1, r2, r3, op, len, mask, payload, hdr⟩ := f
  simp only at hop hlen h64 hctrl hmask
  obtain ⟨e128, e64, e32, e16, eop, elt⟩ := mkByte1_spec fin r1 r2 r3 op hop
  by_cases hl1 : len < 126
  · cases mask with
    | none =>
      have hb2 := mkByte2_spec len (by omega) false
      simp only [Frame.format, formatHeader, Frame.isMasked, wirePayload,
        parsedHeaderLength, Option.isSome_none, if_pos hl1, List.cons_append,
        List.nil_append]
      simp only [parseFrame, e128, e64, e32, e16, eop, if_neg hop,
        hb2.1, hb2.2.1]
      rw [if_neg (by omega : ¬ len = 126), if_neg (by omega : ¬ len = 127)]
      simp only [parseRest]
      rw [if_neg (by
        rintro ⟨hc, hgt⟩
        exact absurd (hctrl hc) (by omega))]
      simp only [Bool.false_eq_true, if_false, List.length_cons]
      rw [if_neg (by omega)]
      simp [hlen, List.take_length]
    | some m =>
      have hm4 := hmask m rfl
      match m, hm4 with
      | [m0, m1, m2, m3], _ =>
        have hb2 := mkByte2_spec len (by omega) true
        simp only [Frame.format, formatHeader, Frame.isMasked, wirePayload,
          parsedHeaderLength, Option.isSome_some, if_pos hl1,
          List.cons_append, List.nil_append, List.append_assoc]
        simp only [parseFrame, e128, e64, e32, e16, eop, if_neg hop,
          hb2.1, hb2.2.1]
        rw [if_neg (by omega : ¬ len = 126), if_neg (by omega : ¬ len = 127)]
        simp only [parseRest]
        rw [if_neg (by
          rintro ⟨hc, hgt⟩
          exact absurd (hctrl hc) (by omega))]
        simp only [eq_self_iff_true, if_true, List.length_cons,
          List.length_append, applyMask_length]
        rw [if_neg (by omega)]
        simp [hlen, List.take_of_length_le, applyMask_length]
  · by_cases hl2 : len ≤ 65535
    · cases mask with
      | none =>
        have hb2 := mkByte2_spec 126 (by omega) false
        simp only [Frame.format, formatHeader, Frame.isMasked, wirePayload,
          parsedHeaderLength, Option.isSome_none, if_neg hl1, if_pos hl2,
          be16Bytes, List.cons_append, List.nil_append, List.append_assoc]
        simp only [parseFrame, e128, e64, e32, e16, eop, if_neg hop,
          hb2.1, hb2.2.1]
        simp only [eq_self_iff_true, if_true, beRead16_be16Bytes len hl2,
          parseRest]
        rw [if_neg (by
          rintro ⟨hc, hgt⟩
          exact absurd (hctrl hc) (by omega))]
        simp only [Bool.false_eq_true, if_false, List.length_cons]
        rw [if_neg (by omega)]
        simp [hlen, List.take_length]
      | some m =>
        have hm4 := hmask m rfl
        match m, hm4 with
        | [m0, m1, m2, m3], _ =>
          have hb2 := mkByte2_spec 126 (by omega) true
          simp only [Frame.format, formatHeader, Frame.isMasked, wirePayload,
            parsedHeaderLength, Option.isSome_some, if_neg hl1, if_pos hl2,
            be16Bytes, List.cons_append, List.nil_append, List.append_assoc]
          simp only [parseFrame, e128, e64, e32, e16, eop, if_neg hop,
            hb2.1, hb2.2.1]
          simp only [eq_self_iff_true, if_true, beRead16_be16Bytes len hl2,
            parseRest]
          rw [if_neg (by
            rintro ⟨hc, hgt⟩
            exact absurd (hctrl hc) (by omega))]
          simp only [eq_self_iff_true, if_true, List.length_cons,
            List.length_append, applyMask_length]
          rw [if_neg (by omega)]
          simp [hlen, List.take_of_length_le, applyMask_length]
    · cases mask with
      | none =>
        have hb2 := mkByte2_spec 127 (by omega) false
        simp only [Frame.format, formatHeader, Frame.isMasked, wirePayload,
          parsedHeaderLength, Option.isSome_none, if_neg hl1, if_neg hl2,
          be64Bytes, List.cons_append, List.nil_append, List.append_assoc]
        simp only [parseFrame, e128, e64, e32, e16, eop, if_neg hop,
          hb2.1, hb2.2.1]
        rw [if_neg (by omega : ¬ (127 : Nat) = 126)]
        simp only [eq_self_iff_true, if_true, beRead64_be64Bytes len h64,
          parseRest]
        rw [if_neg (by
          rintro ⟨hc, hgt⟩
          exact absurd (hctrl hc) (by omega))]
        simp only [Bool.false_eq_true, if_false, List.length_cons]
        rw [if_neg (by omega)]
        simp [hlen, List.take_length]
      | some m =>
        have hm4 := hmask m rfl
        match m, hm4 with
        | [m0, m1, m2, m3], _ =>
          have hb2 := mkByte2_spec 127 (by omega) true
          simp only [Frame.format, formatHeader, Frame.isMasked, wirePayload,
            parsedHeaderLength, Option.isSome_some, if_neg hl1, if_neg hl2,
            be64Bytes, List.cons_append, List.nil_append, List.append_assoc]
          simp only [parseFrame, e128, e64, e32, e16, eop, if_neg hop,
            hb2.1, hb2.2.1]
          rw [if_neg (by omega : ¬ (127 : Nat) = 126)]
          simp only [eq_self_iff_true, if_true, beRead64_be64Bytes len h64,
            parseRest]
          rw [if_neg (by
            rintro ⟨hc, hgt⟩
            exact absurd (hctrl hc) (by omega))]
          simp only [eq_self_iff_true, if_true, List.length_cons,
            List.length_append, applyMask_length]
          rw [if_neg (by omega)]
          simp [hlen, List.take_of_length_le, applyMask_length]

/-- Inversion of `parseRest`: what must have held for it to return a
frame. -/
theorem parseRest_ok_some {fin r1 r2 r3 : Bool} {op : OpCode} {masked : Bool}
    {L hdrL total : Nat} {rest : List Nat} {g : Frame}
    (h : parseRest fin r1 r2 r3 op masked L hdrL total rest = .ok (some g)) :
    ¬(op.isControl = true ∧ L > 125) ∧
    ((masked = false ∧ ¬ total < L + hdrL ∧
        g = ⟨fin, r1, r2, r3, op, L, none, rest.take L, hdrL⟩) ∨
     (masked = true ∧ ∃ m0 m1 m2 m3 rest2,
        rest = m0 :: m1 :: m2 :: m3 :: rest2 ∧
        ¬ total < L + (hdrL + 4) ∧
        g = ⟨fin, r1, r2, r3, op, L, some [m0, m1, m2, m3],
             rest2.take L, hdrL + 4⟩)) := by
  simp only [parseRest] at h
  split at h
  · exact absurd h (by simp)
  · refine ⟨by assumption, ?_⟩
    cases masked with
    | false =>
      simp only [Bool.false_eq_true, if_false] at h
      split at h
      · exact absurd h (by simp)
      · left
        refine ⟨rfl, by assumption, ?_⟩
        simpa [eq_comm] using h
    | true =>
      simp only [eq_self_iff_true, if_true] at h
      match rest with
      | [] => simp at h
      | [m0] => simp at h
      | [m0, m1] => simp at h
      | [m0, m1, m2] => simp at h
      | m0 :: m1 :: m2 :: m3 :: rest2 =>
        simp only at h
        split at h
        · exact absurd h (by simp)
        · right
          refine ⟨rfl, m0, m1, m2, m3, rest2, rfl, by assumption, ?_⟩
          simpa [eq_comm] using h

/-- Reassembling the first header byte from its decoded parts. -/
theorem byte1_recon : ∀ b0 < 256, OpCode.fromU8 (b0 &&& 15) ≠ .Bad →
    mkByte1 (b0 &&& 128 != 0) (b0 &&& 64 != 0) (b0 &&& 32 != 0)
      (b0 &&& 16 != 0) (OpCode.fromU8 (b0 &&& 15)).toU8 = b0 := by decide

/-- Reassembling the second header byte of an unmasked frame. -/
theorem byte2_recon : ∀ b1 < 256, (b1 &&& 128 != 0) = false →
    mkByte2 false (b1 &&& 127) = b1 := by decide

theorem byte2_eq_126 : ∀ b1 < 256, (b1 &&& 128 != 0) = false →
    b1 &&& 127 = 126 → b1 = 126 := by decide

theorem byte2_eq_127 : ∀ b1 < 256, (b1 &&& 128 != 0) = false →
    b1 &&& 127 = 127 → b1 = 127 := by decide

theorem lenBits_le (b1 : Nat) : b1 &&& 127 ≤ 127 := Nat.and_le_right

theorem be16Bytes_beRead16 (l0 l1 : Nat) (h0 : l0 < 256) (h1 : l1 < 256) :
    be16Bytes (beRead16 l0 l1) = [l0, l1] := by
  simp only [be16Bytes, beRead16, List.cons.injEq, and_true]
  omega

theorem be64Bytes_beRead64 (l0 l1 l2 l3 l4 l5 l6 l7 : Nat)
    (h0 : l0 < 256) (h1 : l1 < 256) (h2 : l2 < 256) (h3 : l3 < 256)
    (h4 : l4 < 256) (h5 : l5 < 256) (h6 : l6 < 256) (h7 : l7 < 256) :
    be64Bytes (beRead64 l0 l1 l2 l3 l4 l5 l6 l7) =
      [l0, l1, l2, l3, l4, l5, l6, l7] := by
  simp only [be64Bytes, beRead64, List.cons.injEq, and_true]
  omega

theorem take_succ2 (n a b : Nat) (l : List Nat) :
    (a :: b :: l).take (n + 2) = a :: b :: l.take n := rfl

theorem take_succ4 (n a b c d : Nat) (l : List Nat) :
    (a :: b :: c :: d :: l).take (n + 4) = a :: b :: c :: d :: l.take n := rfl

theorem take_succ10 (n a b c d e f g h i j : Nat) (l : List Nat) :
    (a :: b :: c :: d :: e :: f :: g :: h :: i :: j :: l).take (n + 10) =
      a :: b :: c :: d :: e :: f :: g :: h :: i :: j :: l.take n := rfl

/-- Round trip, parsing first: on an unmasked frame whose wire bytes
used the shortest length encoding, `Frame::format` reproduces exactly
the bytes `Frame::parse` consumed. -/
theorem format_parseFrame (buf : List Nat) (g : Frame)
    (hbytes : ∀ b ∈ buf, b < 256)
    (hp : parseFrame buf = .ok (some g))
    (hunmasked : g.mask = none)
    (hcanon : g.header_length = 2 ∨ (g.header_length = 4 ∧ 126 ≤ g.length) ∨
      (g.header_length = 10 ∧ 65536 ≤ g.length)) :
    g.format = buf.take g.byteLen := by
  match buf, hbytes with
  | [], _ => simp [parseFrame] at hp
  | [b0], _ => simp [parseFrame] at hp
  | b0 :: b1 :: rest, hbytes =>
    have hb0 : b0 < 256 := hbytes _ (by simp)
    have hb1 : b1 < 256 := hbytes _ (by simp)
    simp only [parseFrame] at hp
    by_cases hbad : OpCode.fromU8 (b0 &&& 15) = .Bad
    · rw [if_pos hbad] at hp
      exact absurd hp (by simp)
    · rw [if_neg hbad] at hp
      by_cases h126 : b1 &&& 127 = 126
      · rw [if_pos h126] at hp
        match rest, hbytes with
        | [], _ => simp at hp
        | [l0], _ => simp at hp
        | l0 :: l1 :: rest2, hbytes =>
          have hl0 : l0 < 256 := hbytes _ (by simp)
          have hl1 : l1 < 256 := hbytes _ (by simp)
          simp only at hp
          obtain ⟨-, hinv | hinv⟩ := parseRest_ok_some hp
          · obtain ⟨hm, hsz, hg⟩ := hinv
            subst hg
            simp only at hunmasked hcanon ⊢
            obtain h2 | ⟨-, hge⟩ | ⟨h10, -⟩ := hcanon
            · omega
            · have hle : beRead16 l0 l1 ≤ 65535 := by
                simp only [beRead16]; omega
              have hnlt : ¬ beRead16 l0 l1 < 126 := by omega
              simp only [Frame.format, formatHeader, Frame.isMasked,
                Frame.byteLen, Option.isSome_none, if_neg hnlt,
                if_pos hle, be16Bytes_beRead16 l0 l1 hl0 hl1,
                byte1_recon b0 hb0 hbad, byte2_eq_126 b1 hb1 hm h126,
                List.cons_append, List.nil_append, take_succ4]
              simp [mkByte2]
            · omega
          · obtain ⟨hm, m0, m1, m2, m3, rest3, hrest, hsz, hg⟩ := hinv
            subst hg
            simp at hunmasked
      · rw [if_neg h126] at hp
        by_cases h127 : b1 &&& 127 = 127
        · rw [if_pos h127] at hp
          match rest, hbytes with
          | [], _ => simp at hp
          | [l0], _ => simp at hp
          | [l0, l1], _ => simp at hp
          | [l0, l1, l2], _ => simp at hp
          | [l0, l1, l2, l3], _ => simp at hp
          | [l0, l1, l2, l3, l4], _ => simp at hp
          | [l0, l1, l2, l3, l4, l5], _ => simp at hp
          | [l0, l1, l2, l3, l4, l5, l6], _ => simp at hp
          | l0 :: l1 :: l2 :: l3 :: l4 :: l5 :: l6 :: l7 :: rest2, hbytes =>
            have hl0 : l0 < 256 := hbytes _ (by simp)
            have hl1 : l1 < 256 := hbytes _ (by simp)
            have hl2 : l2 < 256 := hbytes _ (by simp)
            have hl3 : l3 < 256 := hbytes _ (by simp)
            have hl4 : l4 < 256 := hbytes _ (by simp)
            have hl5 : l5 < 256 := hbytes _ (by simp)
            have hl6 : l6 < 256 := hbytes _ (by simp)
            have hl7 : l7 < 256 := hbytes _ (by simp)
            simp only at hp
            obtain ⟨-, hinv | hinv⟩ := parseRest_ok_some hp
            · obtain ⟨hm, hsz, hg⟩ := hinv
              subst hg
              simp only at hunmasked hcanon ⊢
              obtain h2 | ⟨h4, -⟩ | ⟨-, hge⟩ := hcanon
              · omega
              · omega
              · have hnlt : ¬ beRead64 l0 l1 l2 l3 l4 l5 l6 l7 < 126 := by
                  omega
                have hnle : ¬ beRead64 l0 l1 l2 l3 l4 l5 l6 l7 ≤ 65535 := by
                  omega
                simp only [Frame.format, formatHeader, Frame.isMasked,
                  Frame.byteLen, Option.isSome_none, if_neg hnlt, if_neg hnle,
                  be64Bytes_beRead64 l0 l1 l2 l3 l4 l5 l6 l7
                    hl0 hl1 hl2 hl3 hl4 hl5 hl6 hl7,
                  byte1_recon b0 hb0 hbad, byte2_eq_127 b1 hb1 hm h127,
                  List.cons_append, List.nil_append, take_succ10]
                simp [mkByte2]
            · obtain ⟨hm, m0, m1, m2, m3, rest3, hrest, hsz, hg⟩ := hinv
              subst hg
              simp at hunmasked
        · rw [if_neg h127] at hp
          obtain ⟨-, hinv | hinv⟩ := parseRest_ok_some hp
          · obtain ⟨hm, hsz, hg⟩ := hinv
            subst hg
            simp only at hunmasked hcanon ⊢
            have hlt : b1 &&& 127 < 126 := by
              have := lenBits_le b1
              omega
            simp only [Frame.format, formatHeader, Frame.isMasked,
              Frame.byteLen, Option.isSome_none, if_pos hlt,
              byte1_recon b0 hb0 hbad, byte2_recon b1 hb1 hm,
              List.cons_append, List.nil_append, take_succ2]
          · obtain ⟨hm, m0, m1, m2, m3, rest3, hrest, hsz, hg⟩ := hinv
            subst hg
            simp at hunmasked

/-! ### Claim C1: parse/format round trip -/

/-- C1 counterexample: the claim fails as stated.  (i) Round-tripping the
masked single-byte frame with payload `[0]` and mask `[255,0,0,0]`
through `format` then `parse` yields payload `[255]`, not the original
`[0]`: `parse` does not unmask, so the payload equality clause is false.
(ii) The byte sequence `[136, 126, 0, 0]` (a Close frame whose zero
length is non-canonically encoded in 16-bit form) parses successfully,
but re-serializing the parsed frame yields `[136, 0]`, not the consumed
bytes. -/
theorem ws_C1_counterexample :
    (parseFrame (Frame.format
      { finished := true, rsv1 := false, rsv2 := false, rsv3 := false,
        opcode := .Binary, length := 1, mask := some [255, 0, 0, 0],
        payload := [0], header_length := 0 }) = .ok (some
      { finished := true, rsv1 := false, rsv2 := false, rsv3 := false,
        opcode := .Binary, length := 1, mask := some [255, 0, 0, 0],
        payload := [255], header_length := 6 }) ∧
      ([255] : List Nat) ≠ [0]) ∧
    (parseFrame [136, 126, 0, 0] = .ok (some
      { finished := true, rsv1 := false, rsv2 := false, rsv3 := false,
        opcode := .Close, length := 0, mask := none,
        payload := [], header_length := 4 }) ∧
      Frame.format
        { finished := true, rsv1 := false, rsv2 := false, rsv3 := false,
          opcode := .Close, length := 0, mask := none,
          payload := [], header_length := 4 } = [136, 0] ∧
      ([136, 0] : List Nat) ≠ List.take 4 [136, 126, 0, 0]) := by decide

/-- C1 (amended): for every valid frame, serializing with `Frame::format`
and parsing the result back yields a frame agreeing in the final flag,
the rsv bits, opcode, payload length and mask; the payload comes back
bit-identical when the frame is unmasked, and in wire (masked) form when
the frame is masked, with `into_data` recovering the original bytes.
Conversely, re-serializing a parsed frame reproduces the consumed bytes
exactly provided the frame was unmasked and its length was encoded in
shortest form. -/
theorem ws_C1_roundtrip :
    (∀ f : Frame, f.opcode ≠ .Bad → f.length = f.payload.length →
      f.length < 2 ^ 64 → (f.opcode.isControl = true → f.length ≤ 125) →
      (∀ m, f.mask = some m → m.length = 4) →
      ∃ g, parseFrame f.format = .ok (some g) ∧
        g.finished = f.finished ∧ g.rsv1 = f.rsv1 ∧ g.rsv2 = f.rsv2 ∧
        g.rsv3 = f.rsv3 ∧ g.opcode = f.opcode ∧ g.length = f.length ∧
        g.mask = f.mask ∧ g.isMasked = f.isMasked ∧
        (f.mask = none → g.payload = f.payload) ∧
        g.intoData = f.payload) ∧
    (∀ (buf : List Nat) (g : Frame), (∀ b ∈ buf, b < 256) →
      parseFrame buf = .ok (some g) → g.mask = none →
      (g.header_length = 2 ∨ (g.header_length = 4 ∧ 126 ≤ g.length) ∨
        (g.header_length = 10 ∧ 65536 ≤ g.length)) →
      g.format = buf.take g.byteLen) := by
  constructor
  · intro f hop hlen h64 hc hm
    refine ⟨_, parseFrame_format f hop hlen h64 hc hm, rfl, rfl, rfl, rfl,
      rfl, rfl, rfl, ?_, ?_, ?_⟩
    · simp [Frame.isMasked]
    · intro hnone
      simp [wirePayload, hnone]
    · cases hmk : f.mask with
      | none => simp [Frame.intoData, wirePayload, hmk]
      | some m => simp [Frame.intoData, wirePayload, hmk, applyMask_applyMask]
  · intro buf g hbytes hp hnone hcanon
    exact format_parseFrame buf g hbytes hp hnone hcanon

/-- C1 witness: the round trip at the concrete unmasked binary frame with
payload `[5]`, and re-serialization of the parsed bytes `[130, 1, 7]`. -/
theorem ws_C1_roundtrip_witness :
    (∃ g, parseFrame (Frame.message [5] .Binary true).format =
        .ok (some g) ∧ g.intoData = [5]) ∧
    Frame.format
      { finished := true, rsv1 := false, rsv2 := false, rsv3 := false,
        opcode := .Binary, length := 1, mask := none,
        payload := [7], header_length := 2 } = [130, 1, 7] := by
  constructor
  · obtain ⟨g, hg, -, -, -, -, -, -, -, -, -, hdata⟩ :=
      ws_C1_roundtrip.1 (Frame.message [5] .Binary true) (by decide)
        (by decide) (by decide) (by decide) (by decide)
    exact ⟨g, hg, hdata⟩
  · have h := ws_C1_roundtrip.2 [130, 1, 7]
      { finished := true, rsv1 := false, rsv2 := false, rsv3 := false,
        opcode := .Binary, length := 1, mask := none,
        payload := [7], header_length := 2 }
      (by decide) (by decide) (by decide) (by decide)
    simpa using h

/-! ### Claim C2: close frame payload byte order -/

/-- C2: evaluating `Frame::close` at the failing input.  On the modelled
little-endian host, `Frame::close(CloseCode::Normal, "")` produces the
payload `[232, 3]`, the little-endian bytes of 1000, instead of the
big-endian (network order) `[3, 232]` that the specification and
RFC 6455 require: the `to_be` in `Frame::close` re-swaps the value that
`Into<u16> for CloseCode` had already converted to big-endian
representation, cancelling it.  The `CloseCode::Empty` clause of the
claim does hold, and the opcode is `Close`. -/
theorem ws_C2_close_payload :
    (Frame.close .Normal []).payload = [232, 3] ∧
    ([232, 3] : List Nat) ≠ [3, 232] ∧
    (Frame.close .Away [65, 66]).payload = [233, 3, 65, 66] ∧
    (Frame.close .Empty [65]).payload = [] ∧
    (Frame.close .Normal []).opcode = .Close := by decide

/-! ### Claim C3: unmasking of parsed frames -/

/-- C3 counterexample: the wire bytes
`[130, 129, 255, 0, 0, 0, 0]` carry a masked Binary frame with mask
`[255, 0, 0, 0]` and wire payload `[0]`.  `Frame::parse` stores payload
`[0]` — the wire bytes, not the unmasked application data
`[0] XOR mask = [255]` the claim promises. -/
theorem ws_C3_counterexample :
    parseFrame [130, 129, 255, 0, 0, 0, 0] = .ok (some
      { finished := true, rsv1 := false, rsv2 := false, rsv3 := false,
        opcode := .Binary, length := 1, mask := some [255, 0, 0, 0],
        payload := [0], header_length := 6 }) ∧
    applyMask [0] [255, 0, 0, 0] = [255] ∧
    ([0] : List Nat) ≠ [255] := by decide

/-- C3 (amended): `Frame::parse` stores the still-masked wire payload and
keeps the mask, so `is_masked()` reports true; the unmasking is deferred
to `Frame::into_data`, which XORs the stored payload with the 4-byte
mask cycled and thereby recovers the original application data. -/
theorem ws_C3_unmask_deferred (f : Frame) (m : List Nat)
    (hop : f.opcode ≠ .Bad) (hlen : f.length = f.payload.length)
    (h64 : f.length < 2 ^ 64)
    (hctrl : f.opcode.isControl = true → f.length ≤ 125)
    (hm : f.mask = some m) (hm4 : m.length = 4) :
    ∃ g, parseFrame f.format = .ok (some g) ∧ g.isMasked = true ∧
      g.payload = applyMask f.payload m ∧ g.intoData = f.payload := by
  refine ⟨_, parseFrame_format f hop hlen h64 hctrl ?_, ?_, ?_, ?_⟩
  · intro m2 hm2
    rw [hm] at hm2
    cases hm2
    exact hm4
  · simp [Frame.isMasked, hm]
  · simp [wirePayload, hm]
  · simp [Frame.intoData, wirePayload, hm, applyMask_applyMask]

/-- C3 witness: the deferred unmasking at a concrete masked Text frame. -/
theorem ws_C3_unmask_deferred_witness :
    ∃ g, parseFrame
        (Frame.format { Frame.message [10, 20] .Text true with
          mask := some [1, 2, 3, 4] }) = .ok (some g) ∧
      g.isMasked = true ∧ g.payload = applyMask [10, 20] [1, 2, 3, 4] ∧
      g.intoData = [10, 20] :=
  ws_C3_unmask_deferred
    { Frame.message [10, 20] .Text true with mask := some [1, 2, 3, 4] }
    [1, 2, 3, 4] (by decide) (by decide) (by decide) (by decide)
    (by decide) (by decide)


/-! ### Claim C8: incomplete input and protocol errors in Frame::parse -/

theorem OpCode.isControl_ne_bad {op : OpCode} (h : op.isControl = true) :
    op ≠ .Bad := by
  cases op <;> simp_all [OpCode.isControl]

/-- C8: `Frame::parse` returns `Ok(None)` (cursor reset) whenever the
buffered bytes run out at any stage — the 2-byte header, the 16- or
64-bit extended length, the 4 mask bytes, or the payload itself — and a
Protocol error for an invalid opcode nibble or a control frame whose
declared length exceeds 125, with the checks performed in the order the
source performs them. -/
theorem ws_C8_parse_errors :
    -- 2-byte header not available
    (∀ buf : List Nat, buf.length < 2 → parseFrame buf = .ok none) ∧
    -- invalid opcode nibble
    (∀ b0 b1 : Nat, ∀ rest : List Nat, OpCode.fromU8 (b0 &&& 15) = .Bad →
      parseFrame (b0 :: b1 :: rest) = .error .protocol) ∧
    -- 16-bit extended length announced but not buffered
    (∀ b0 b1 : Nat, ∀ rest : List Nat, OpCode.fromU8 (b0 &&& 15) ≠ .Bad →
      b1 &&& 127 = 126 → rest.length < 2 →
      parseFrame (b0 :: b1 :: rest) = .ok none) ∧
    -- 64-bit extended length announced but not buffered
    (∀ b0 b1 : Nat, ∀ rest : List Nat, OpCode.fromU8 (b0 &&& 15) ≠ .Bad →
      b1 &&& 127 = 127 → rest.length < 8 →
      parseFrame (b0 :: b1 :: rest) = .ok none) ∧
    -- control frame with 16-bit declared length over 125
    (∀ b0 b1 l0 l1 : Nat, ∀ rest : List Nat,
      (OpCode.fromU8 (b0 &&& 15)).isControl = true → b1 &&& 127 = 126 →
      beRead16 l0 l1 > 125 →
      parseFrame (b0 :: b1 :: l0 :: l1 :: rest) = .error .protocol) ∧
    -- control frame with 64-bit declared length over 125
    (∀ b0 b1 l0 l1 l2 l3 l4 l5 l6 l7 : Nat, ∀ rest : List Nat,
      (OpCode.fromU8 (b0 &&& 15)).isControl = true → b1 &&& 127 = 127 →
      beRead64 l0 l1 l2 l3 l4 l5 l6 l7 > 125 →
      parseFrame (b0 :: b1 :: l0 :: l1 :: l2 :: l3 :: l4 :: l5 :: l6 :: l7
        :: rest) = .error .protocol) ∧
    -- mask announced but fewer than 4 mask bytes buffered
    (∀ b0 b1 : Nat, ∀ rest : List Nat, OpCode.fromU8 (b0 &&& 15) ≠ .Bad →
      (b1 &&& 128 != 0) = true → b1 &&& 127 < 126 → rest.length < 4 →
      parseFrame (b0 :: b1 :: rest) = .ok none) ∧
    -- payload not fully buffered, unmasked short length
    (∀ b0 b1 : Nat, ∀ rest : List Nat, OpCode.fromU8 (b0 &&& 15) ≠ .Bad →
      (b1 &&& 128 != 0) = false → b1 &&& 127 < 126 →
      rest.length < b1 &&& 127 →
      parseFrame (b0 :: b1 :: rest) = .ok none) ∧
    -- payload not fully buffered, masked short length
    (∀ b0 b1 m0 m1 m2 m3 : Nat, ∀ rest2 : List Nat,
      OpCode.fromU8 (b0 &&& 15) ≠ .Bad →
      (b1 &&& 128 != 0) = true → b1 &&& 127 < 126 →
      rest2.length < b1 &&& 127 →
      parseFrame (b0 :: b1 :: m0 :: m1 :: m2 :: m3 :: rest2) = .ok none) ∧
    -- payload not fully buffered, unmasked 16-bit length
    (∀ b0 b1 l0 l1 : Nat, ∀ rest2 : List Nat,
      OpCode.fromU8 (b0 &&& 15) ≠ .Bad →
      (b1 &&& 128 != 0) = false → b1 &&& 127 = 126 →
      ¬((OpCode.fromU8 (b0 &&& 15)).isControl = true ∧ beRead16 l0 l1 > 125) →
      rest2.length < beRead16 l0 l1 →
      parseFrame (b0 :: b1 :: l0 :: l1 :: rest2) = .ok none) := by
  refine ⟨?_, ?_, ?_, ?_, ?_, ?_, ?_, ?_, ?_, ?_⟩
  · intro buf h
    match buf with
    | [] => rfl
    | [b0] => rfl
    | b0 :: b1 :: rest =>
      exact absurd h (by simp only [List.length_cons]; omega)
  · intro b0 b1 rest hbad
    simp only [parseFrame, if_pos hbad]
  · intro b0 b1 rest hbad h126 hlen
    simp only [parseFrame, if_neg hbad, if_pos h126]
    match rest, hlen with
    | [], _ => rfl
    | [l0], _ => rfl
  · intro b0 b1 rest hbad h127 hlen
    simp only [parseFrame, if_neg hbad]
    rw [if_neg (by omega : ¬ b1 &&& 127 = 126), if_pos h127]
    match rest, hlen with
    | [], _ => rfl
    | [l0], _ => rfl
    | [l0, l1], _ => rfl
    | [l0, l1, l2], _ => rfl
    | [l0, l1, l2, l3], _ => rfl
    | [l0, l1, l2, l3, l4], _ => rfl
    | [l0, l1, l2, l3, l4, l5], _ => rfl
    | [l0, l1, l2, l3, l4, l5, l6], _ => rfl
  · intro b0 b1 l0 l1 rest hctl h126 hgt
    simp only [parseFrame, if_neg (OpCode.isControl_ne_bad hctl),
      if_pos h126]
    simp only [parseRest]
    rw [if_pos (show (OpCode.fromU8 (b0 &&& 15)).isControl = true ∧
      beRead16 l0 l1 > 125 from ⟨hctl, hgt⟩)]
  · intro b0 b1 l0 l1 l2 l3 l4 l5 l6 l7 rest hctl h127 hgt
    simp only [parseFrame, if_neg (OpCode.isControl_ne_bad hctl)]
    rw [if_neg (by omega : ¬ b1 &&& 127 = 126), if_pos h127]
    simp only [parseRest]
    rw [if_pos (show (OpCode.fromU8 (b0 &&& 15)).isControl = true ∧
      beRead64 l0 l1 l2 l3 l4 l5 l6 l7 > 125 from ⟨hctl, hgt⟩)]
  · intro b0 b1 rest hbad hm hlt hlen
    simp only [parseFrame, if_neg hbad]
    rw [if_neg (by omega : ¬ b1 &&& 127 = 126),
      if_neg (by omega : ¬ b1 &&& 127 = 127)]
    simp only [parseRest]
    rw [if_neg (by rintro ⟨-, h⟩; omega)]
    simp only [hm, eq_self_iff_true, if_true]
    match rest, hlen with
    | [], _ => rfl
    | [m0], _ => rfl
    | [m0, m1], _ => rfl
    | [m0, m1, m2], _ => rfl
  · intro b0 b1 rest hbad hm hlt hlen
    simp only [parseFrame, if_neg hbad]
    rw [if_neg (by omega : ¬ b1 &&& 127 = 126),
      if_neg (by omega : ¬ b1 &&& 127 = 127)]
    simp only [parseRest]
    rw [if_neg (by rintro ⟨-, h⟩; omega)]
    simp only [hm, Bool.false_eq_true, if_false, List.length_cons]
    rw [if_pos (by omega)]
  · intro b0 b1 m0 m1 m2 m3 rest2 hbad hm hlt hlen
    simp only [parseFrame, if_neg hbad]
    rw [if_neg (by omega : ¬ b1 &&& 127 = 126),
      if_neg (by omega : ¬ b1 &&& 127 = 127)]
    simp only [parseRest]
    rw [if_neg (by rintro ⟨-, h⟩; omega)]
    simp only [hm, eq_self_iff_true, if_true, List.length_cons]
    rw [if_pos (by omega)]
  · intro b0 b1 l0 l1 rest2 hbad hm h126 hctl hlen
    simp only [parseFrame, if_neg hbad, if_pos h126]
    simp only [parseRest]
    rw [if_neg hctl]
    simp only [hm, Bool.false_eq_true, if_false, List.length_cons]
    rw [if_pos (by omega)]

/-- C8 witness: every clause of the characterization applied at a
concrete input. -/
theorem ws_C8_parse_errors_witness :
    parseFrame [130] = .ok none ∧
    parseFrame [131, 0] = .error .protocol ∧
    parseFrame [130, 126, 9] = .ok none ∧
    parseFrame [130, 127, 9] = .ok none ∧
    parseFrame [137, 126, 1, 0] = .error .protocol ∧
    parseFrame [137, 127, 0, 0, 0, 0, 0, 0, 1, 0] = .error .protocol ∧
    parseFrame [130, 129, 7, 7] = .ok none ∧
    parseFrame [130, 2, 9] = .ok none ∧
    parseFrame [130, 130, 1, 2, 3, 4, 9] = .ok none ∧
    parseFrame [130, 126, 1, 0, 9] = .ok none := by
  refine ⟨?_, ?_, ?_, ?_, ?_, ?_, ?_, ?_, ?_, ?_⟩
  · exact ws_C8_parse_errors.1 [130] (by decide)
  · exact ws_C8_parse_errors.2.1 131 0 [] (by decide)
  · exact ws_C8_parse_errors.2.2.1 130 126 [9] (by decide) (by decide)
      (by decide)
  · exact ws_C8_parse_errors.2.2.2.1 130 127 [9] (by decide) (by decide)
      (by decide)
  · exact ws_C8_parse_errors.2.2.2.2.1 137 126 1 0 [] (by decide)
      (by decide) (by decide)
  · exact ws_C8_parse_errors.2.2.2.2.2.1 137 127 0 0 0 0 0 0 1 0 []
      (by decide) (by decide) (by decide)
  · exact ws_C8_parse_errors.2.2.2.2.2.2.1 130 129 [7, 7] (by decide)
      (by decide) (by decide) (by decide)
  · exact ws_C8_parse_errors.2.2.2.2.2.2.2.1 130 2 [9] (by decide)
      (by decide) (by decide) (by decide)
  · exact ws_C8_parse_errors.2.2.2.2.2.2.2.2.1 130 130 1 2 3 4 [9]
      (by decide) (by decide) (by decide) (by decide)
  · exact ws_C8_parse_errors.2.2.2.2.2.2.2.2.2 130 126 1 0 [9] (by decide)
      (by decide) (by decide) (by decide) (by decide)


/-! ### Claim C4: close-code validation in Connection::read_frames -/

theorem swap16_swap16 (x : Nat) (h : x < 65536) : swap16 (swap16 x) = x := by
  unfold swap16
  have h1 : x / 256 % 256 = x / 256 := by omega
  rw [h1]
  have h2 : (x % 256 * 256 + x / 256) % 256 = x / 256 := by omega
  have h3 : (x % 256 * 256 + x / 256) / 256 % 256 = x % 256 := by omega
  rw [h2, h3]
  omega

theorem isSyntheticRejected_other (v : Nat) :
    isSyntheticRejected (.Other v) = false := rfl

theorem closeCodeFromRaw_other (v : Nat)
    (h : v ≠ 1000 ∧ v ≠ 1001 ∧ v ≠ 1002 ∧ v ≠ 1003 ∧ v ≠ 1005 ∧ v ≠ 1006 ∧
      v ≠ 1007 ∧ v ≠ 1008 ∧ v ≠ 1009 ∧ v ≠ 1010 ∧ v ≠ 1011 ∧ v ≠ 1012 ∧
      v ≠ 1013 ∧ v ≠ 1015 ∧ v ≠ 0) :
    closeCodeFromRaw v = .Other v := by
  obtain ⟨a1, a2, a3, a4, a5, a6, a7, a8, a9, a10, a11, a12, a13, a14, a15⟩ :=
    h
  simp only [closeCodeFromRaw, if_neg a1, if_neg a2, if_neg a3, if_neg a4,
    if_neg a5, if_neg a6, if_neg a7, if_neg a8, if_neg a9, if_neg a10,
    if_neg a11, if_neg a12, if_neg a13, if_neg a14, if_neg a15]

theorem rejected_code_checked (v : Nat) (hrej : rejectedCode v) :
    (otherCodeInvalid (closeCodeFromRaw v) ||
      isSyntheticRejected (closeCodeFromRaw v)) = true := by
  unfold rejectedCode at hrej
  rcases hrej with ⟨hlt, hne⟩ | hge | rfl | rfl | rfl | rfl | rfl | rfl |
    rfl | rfl | rfl | rfl | rfl
  · rw [closeCodeFromRaw_other v (by omega)]
    simp only [otherCodeInvalid, isSyntheticRejected_other, Bool.or_false,
      Bool.or_eq_true, decide_eq_true_eq]
    omega
  · rw [closeCodeFromRaw_other v (by omega)]
    simp only [otherCodeInvalid, isSyntheticRejected_other, Bool.or_false,
      Bool.or_eq_true, decide_eq_true_eq]
    omega
  all_goals decide

theorem accepted_code_checked (v : Nat) (h65 : v < 65536)
    (hacc : ¬ rejectedCode v) :
    otherCodeInvalid (closeCodeFromRaw v) = false ∧
    isSyntheticRejected (closeCodeFromRaw v) = false ∧
    (closeCodeFromRaw v).val = v := by
  by_cases e1 : v = 1000
  · subst e1; decide
  by_cases e2 : v = 1001
  · subst e2; decide
  by_cases e3 : v = 1002
  · subst e3; decide
  by_cases e4 : v = 1003
  · subst e4; decide
  by_cases e5 : v = 1005
  · subst e5; exact absurd (by decide) hacc
  by_cases e6 : v = 1006
  · subst e6; exact absurd (by decide) hacc
  by_cases e7 : v = 1007
  · subst e7; decide
  by_cases e8 : v = 1008
  · subst e8; decide
  by_cases e9 : v = 1009
  · subst e9; decide
  by_cases e10 : v = 1010
  · subst e10; decide
  by_cases e11 : v = 1011
  · subst e11; decide
  by_cases e12 : v = 1012
  · subst e12; exact absurd (by decide) hacc
  by_cases e13 : v = 1013
  · subst e13; exact absurd (by decide) hacc
  by_cases e14 : v = 1015
  · subst e14; exact absurd (by decide) hacc
  by_cases e15 : v = 0
  · subst e15; decide
  rw [closeCodeFromRaw_other v
    ⟨e1, e2, e3, e4, e5, e6, e7, e8, e9, e10, e11, e12, e13, e14, e15⟩]
  refine ⟨?_, isSyntheticRejected_other v, ?_⟩
  · simp only [otherCodeInvalid, Bool.or_eq_false_iff,
      decide_eq_false_iff_not]
    unfold rejectedCode at hacc
    omega
  · simp only [CloseCode.val]
    omega

/-- C4 counterexample: the claim as stated requires every decoded code
below 1000 to produce a Protocol error, but the payload `[0, 0]`
decodes to 0, which `CloseCode::from` maps to `CloseCode::Empty`; the
reserved-range check applies only to `CloseCode::Other`, so the
connection mirrors an empty close instead of erroring. -/
theorem ws_C4_counterexample :
    processClose [0, 0] = .reply .Empty ∧
    (0 : Nat) < 1000 ∧
    CloseAction.reply .Empty ≠ .protocolError := by decide

/-- C4 (amended): for a final Close frame processed while not already
closing, with decoded code `v = b0 + 256·b1` (the host byte order the
code's cancelling swaps produce): every `v` that is below 1000 — except
0, which is mapped to `CloseCode::Empty` and mirrored as an empty close —
at or above 5000, one of 1004, 1014, 1016, 1100, 2000, 2999, or one of
the synthetic codes 1005, 1006, 1012, 1013, 1015 yields a Protocol
error, and the error path replies with `CloseCode::Protocol`, numeric
value 1002, rather than echoing; every other code is mirrored back
(value preserved), or answered with `CloseCode::Invalid` when the reason
bytes are not valid UTF-8. -/
theorem ws_C4_close_validation (b0 b1 : Nat) (rest : List Nat)
    (h0 : b0 < 256) (h1 : b1 < 256) :
    (rejectedCode (b0 + 256 * b1) →
      processClose (b0 :: b1 :: rest) = .protocolError) ∧
    (¬ rejectedCode (b0 + 256 * b1) →
      processClose (b0 :: b1 :: rest) =
        if utf8Valid rest then .reply (closeCodeFromRaw (b0 + 256 * b1))
        else .reply .Invalid) ∧
    (¬ rejectedCode (b0 + 256 * b1) →
      (closeCodeFromRaw (b0 + 256 * b1)).val = b0 + 256 * b1) ∧
    errorResponseCode .protocol = .Protocol ∧
    CloseCode.Protocol.val = 1002 := by
  have hv : b0 + 256 * b1 < 65536 := by omega
  have hname : closeCodeFromBe (swap16 (b0 + 256 * b1)) =
      closeCodeFromRaw (b0 + 256 * b1) := by
    rw [closeCodeFromBe, swap16_swap16 _ hv]
  refine ⟨?_, ?_, fun h => (accepted_code_checked _ hv h).2.2, rfl, rfl⟩
  · intro hrej
    have hchk := rejected_code_checked _ hrej
    simp only [processClose, hname]
    rcases Bool.or_eq_true_iff.mp hchk with h | h
    · rw [if_pos h]
    · by_cases h2 : otherCodeInvalid (closeCodeFromRaw (b0 + 256 * b1)) = true
      · rw [if_pos h2]
      · rw [if_neg h2, if_pos h]
  · intro hacc
    obtain ⟨ho, hs, -⟩ := accepted_code_checked _ hv hacc
    simp only [processClose, hname, ho, Bool.false_eq_true, if_false, hs]

/-- C4 witness: payload `[236, 3]` decodes to 1004 and triggers the
Protocol error; payload `[232, 3]` decodes to 1000 and is mirrored as
`CloseCode::Normal`. -/
theorem ws_C4_close_validation_witness :
    processClose [236, 3] = .protocolError ∧
    processClose [232, 3] = .reply .Normal := by
  constructor
  · exact (ws_C4_close_validation 236 3 [] (by decide) (by decide)).1
      (by decide)
  · have h := (ws_C4_close_validation 232 3 [] (by decide) (by decide)).2.1
      (by decide)
    rw [h]; decide


/-! ### Claim C5: outbound message fragmentation
(Connection::send_message) -/

theorem chunksF_nil (fuel n : Nat) : chunksF fuel n [] = [] := by
  cases fuel <;> rfl

theorem chunksF_flatten : ∀ (fuel n : Nat) (xs : List Nat), 0 < n →
    xs.length ≤ fuel → (chunksF fuel n xs).flatten = xs := by
  intro fuel
  induction fuel with
  | zero =>
    intro n xs hn hlen
    match xs with
    | [] => rfl
  | succ f ih =>
    intro n xs hn hlen
    match xs with
    | [] => rfl
    | x :: t =>
      simp only [chunksF, List.flatten_cons]
      rw [ih n ((x :: t).drop n) hn
        (by simp only [List.length_drop, List.length_cons] at hlen ⊢; omega)]
      exact List.take_append_drop n (x :: t)

theorem chunksF_length : ∀ (fuel n : Nat) (xs : List Nat), 0 < n →
    xs ≠ [] → xs.length ≤ fuel →
    (chunksF fuel n xs).length = (xs.length + n - 1) / n := by
  intro fuel
  induction fuel with
  | zero =>
    intro n xs hn hne hlen
    match xs with
    | [] => exact absurd rfl hne
    | x :: t =>
      simp only [List.length_cons] at hlen
      exact absurd hlen (by omega)
  | succ f ih =>
    intro n xs hn hne hlen
    match xs with
    | x :: t =>
      simp only [chunksF, List.length_cons]
      by_cases hle : (x :: t).length ≤ n
      · rw [List.drop_eq_nil_of_le hle, chunksF_nil]
        simp only [List.length_nil, List.length_cons] at hle ⊢
        have h1 : t.length + 1 + n - 1 = t.length + n := by omega
        rw [h1]
        have h2 := Nat.add_div_right t.length hn
        have h3 : t.length / n = 0 := Nat.div_eq_of_lt (by omega)
        omega
      · have hdne : (x :: t).drop n ≠ [] := by
          intro hx
          have := congrArg List.length hx
          simp only [List.length_drop, List.length_nil,
            List.length_cons] at this
          simp only [List.length_cons] at hle
          omega
        rw [ih n ((x :: t).drop n) hn hdne
          (by simp only [List.length_drop, List.length_cons] at hlen ⊢
              omega)]
        simp only [List.length_drop, List.length_cons] at hle ⊢
        have hlen2 : t.length + 1 - n + n - 1 = t.length := by omega
        have hlen3 : t.length + 1 + n - 1 = t.length + n := by omega
        rw [hlen2, hlen3]
        have h2 := Nat.add_div_right t.length hn
        omega

theorem continueFrames_concat (mids : List (List Nat)) (last : List Nat) :
    continueFrames (mids ++ [last]) =
      mids.map (fun c => Frame.message c .Continue false) ++
      [Frame.message last .Continue true] := by
  induction mids with
  | nil => rfl
  | cons c rest ih =>
    cases rest with
    | nil => rfl
    | cons r rs =>
      calc continueFrames ((c :: r :: rs) ++ [last])
          = Frame.message c .Continue false ::
            continueFrames ((r :: rs) ++ [last]) := rfl
        _ = _ := by rw [ih]; rfl

/-- C5: a message longer than `fragment_size` is sent as exactly
⌈n / fragment_size⌉ frames — the first with the message opcode and
final = false, the middles as non-final Continue frames, the last as a
final Continue frame — whose payloads concatenate to the original
bytes; a message that fits is sent as one final frame with the message
opcode. -/
theorem ws_C5_fragmentation (fs : Nat) (op : OpCode) (data : List Nat)
    (hfs : 0 < fs) :
    (data.length > fs →
      ∃ first mids last,
        rustChunks data fs = first :: mids ++ [last] ∧
        sendMessageFrames fs op data =
          Frame.message first op false ::
            (mids.map (fun c => Frame.message c .Continue false) ++
             [Frame.message last .Continue true]) ∧
        (first :: mids ++ [last]).flatten = data ∧
        mids.length + 2 = (data.length + fs - 1) / fs) ∧
    (data.length ≤ fs →
      sendMessageFrames fs op data = [Frame.message data op true]) := by
  constructor
  · intro hgt
    have hne : data ≠ [] := by
      intro h
      subst h
      simp only [List.length_nil] at hgt
      omega
    have hcl : (rustChunks data fs).length = (data.length + fs - 1) / fs :=
      chunksF_length data.length fs data hfs hne (le_refl _)
    have hge2 : 2 ≤ (rustChunks data fs).length := by
      rw [hcl]
      rw [Nat.le_div_iff_mul_le hfs]
      omega
    match hc : rustChunks data fs with
    | [] => rw [hc] at hge2; simp at hge2
    | [c] => rw [hc] at hge2; simp at hge2
    | c0 :: c1 :: cs =>
      obtain ⟨mids, last, hml⟩ : ∃ mids last, c1 :: cs = mids ++ [last] :=
        ⟨(c1 :: cs).dropLast, (c1 :: cs).getLast (by simp),
          (List.dropLast_append_getLast (by simp)).symm⟩
      refine ⟨c0, mids, last, by rw [hml, List.cons_append], ?_, ?_, ?_⟩
      · simp only [sendMessageFrames, if_pos hgt, hc]
        rw [hml, continueFrames_concat]
      · rw [List.cons_append, ← hml, ← hc]
        exact chunksF_flatten data.length fs data hfs (le_refl _)
      · have hlc := congrArg List.length hc
        rw [hcl, hml] at hlc
        simp only [List.length_cons, List.length_append,
          List.length_nil] at hlc
        omega
  · intro hle
    simp [sendMessageFrames, Nat.not_lt.mpr hle]

/-- C5 witness: a 5-byte message with fragment size 2 yields three
frames (Binary non-final, Continue non-final, Continue final) whose
payloads are the three chunks. -/
theorem ws_C5_fragmentation_witness :
    (∃ first mids last,
      rustChunks [1, 2, 3, 4, 5] 2 = first :: mids ++ [last] ∧
      sendMessageFrames 2 .Binary [1, 2, 3, 4, 5] =
        Frame.message first .Binary false ::
          (mids.map (fun c => Frame.message c .Continue false) ++
           [Frame.message last .Continue true]) ∧
      (first :: mids ++ [last]).flatten = [1, 2, 3, 4, 5] ∧
      mids.length + 2 = (5 + 2 - 1) / 2) ∧
    sendMessageFrames 3 .Text [9, 9] = [Frame.message [9, 9] .Text true] := by
  constructor
  · exact (ws_C5_fragmentation 2 .Binary [1, 2, 3, 4, 5] (by decide)).1
      (by decide)
  · exact (ws_C5_fragmentation 3 .Text [9, 9] (by decide)).2 (by decide)

/-! ### Claim C6: endpoint masking discipline
(Connection::buffer_frame) -/

theorem mkByte2_testBit : ∀ L ≤ 127, ∀ m : Bool,
    (mkByte2 m L).testBit 7 = m := by decide

/-- The wire form of a frame starts with the two header bytes, and the
second byte's mask bit (bit 7) equals `is_masked()`, in all three
length-encoding branches of `Frame::format`. -/
theorem format_mask_bit (f : Frame) :
    ∃ one lenBits tail, lenBits ≤ 127 ∧
      f.format = one :: mkByte2 f.isMasked lenBits :: tail ∧
      (mkByte2 f.isMasked lenBits).testBit 7 = f.isMasked := by
  by_cases h1 : f.length < 126
  · refine ⟨mkByte1 f.finished f.rsv1 f.rsv2 f.rsv3 f.opcode.toU8,
      f.length,
      (match f.mask with
       | some m => m ++ applyMask f.payload m
       | none => f.payload),
      by omega, ?_, mkByte2_testBit f.length (by omega) f.isMasked⟩
    simp only [Frame.format, formatHeader, if_pos h1, List.cons_append,
      List.nil_append]
  · by_cases h2 : f.length ≤ 65535
    · refine ⟨mkByte1 f.finished f.rsv1 f.rsv2 f.rsv3 f.opcode.toU8,
        126,
        f.length / 256 % 256 :: f.length % 256 ::
          (match f.mask with
           | some m => m ++ applyMask f.payload m
           | none => f.payload),
        by omega, ?_, mkByte2_testBit 126 (by omega) f.isMasked⟩
      simp only [Frame.format, formatHeader, if_neg h1, if_pos h2,
        be16Bytes, List.cons_append, List.append_assoc, List.nil_append]
    · refine ⟨mkByte1 f.finished f.rsv1 f.rsv2 f.rsv3 f.opcode.toU8,
        127,
        f.length / 2 ^ 56 % 256 :: f.length / 2 ^ 48 % 256 ::
        f.length / 2 ^ 40 % 256 :: f.length / 2 ^ 32 % 256 ::
        f.length / 2 ^ 24 % 256 :: f.length / 2 ^ 16 % 256 ::
        f.length / 2 ^ 8 % 256 :: f.length % 256 ::
          (match f.mask with
           | some m => m ++ applyMask f.payload m
           | none => f.payload),
        by omega, ?_, mkByte2_testBit 127 (by omega) f.isMasked⟩
      simp only [Frame.format, formatHeader, if_neg h1, if_neg h2,
        be64Bytes, List.cons_append, List.append_assoc, List.nil_append]

/-- C6: every frame built by the frame constructors is unmasked; a
client endpoint's `buffer_frame` masks it (mask bit set, `is_masked()`
true), while a server endpoint leaves the mask bit clear, for data,
ping, pong and close frames alike. -/
theorem ws_C6_endpoint_masking :
    (∀ (data : List Nat) (op : OpCode) (fin : Bool),
      (Frame.message data op fin).mask = none ∧
      (Frame.ping data).mask = none ∧ (Frame.pong data).mask = none) ∧
    (∀ (code : CloseCode) (reason : List Nat),
      (Frame.close code reason).mask = none) ∧
    (∀ (m : List Nat) (f : Frame), f.mask = none →
      (bufferedFrame .Client m f).isMasked = true ∧
      (bufferedFrame .Server m f).isMasked = false) := by
  refine ⟨fun data op fin => ⟨rfl, rfl, rfl⟩, fun code reason => rfl, ?_⟩
  intro m f hf
  constructor
  · simp [bufferedFrame, Frame.isMasked]
  · simp [bufferedFrame, Frame.isMasked, hf]

/-- C6 witness: the masking discipline at a concrete ping frame. -/
theorem ws_C6_endpoint_masking_witness :
    (bufferedFrame .Client [1, 2, 3, 4] (Frame.ping [7])).isMasked = true ∧
    (bufferedFrame .Server [1, 2, 3, 4] (Frame.ping [7])).isMasked =
      false :=
  ws_C6_endpoint_masking.2.2 [1, 2, 3, 4] (Frame.ping [7]) (by decide)


/-! ### Claim C7: Sec-WebSocket-Accept hashing
(handshake.rs: hash_key and encode_base64) -/

theorem shiftLeft_lor_eq_add : ∀ (k x y : Nat), y < 2 ^ k →
    (x <<< k) ||| y = x <<< k + y := by
  intro k
  induction k with
  | zero =>
    intro x y h
    interval_cases y
    simp
  | succ k ih =>
    intro x y h
    have hx : x <<< (k + 1) = Nat.bit false (x <<< k) := by
      simp [Nat.shiftLeft_eq, Nat.bit, pow_succ]
      ring
    have hy2 : y / 2 < 2 ^ k := by
      have hp : (2 : Nat) ^ (k + 1) = 2 ^ k * 2 := pow_succ 2 k
      omega
    rcases Nat.even_or_odd y with he | ho
    · obtain ⟨m, hm⟩ := he
      have hym : y = Nat.bit false m := by simp [Nat.bit]; omega
      rw [hx, hym, Nat.lor_bit, ih x m (by omega)]
      simp [Nat.bit]
      omega
    · obtain ⟨m, hm⟩ := ho
      have hym : y = Nat.bit true m := by simp [Nat.bit]; omega
      rw [hx, hym, Nat.lor_bit, ih x m (by omega)]
      simp [Nat.bit]
      omega

theorem lor_eq_add_of_mod (x y k : Nat) (hx : x % 2 ^ k = 0)
    (hy : y < 2 ^ k) : x ||| y = x + y := by
  obtain ⟨m, hm⟩ : ∃ m, x = m * 2 ^ k :=
    ⟨x / 2 ^ k, (Nat.div_mul_cancel (Nat.dvd_of_mod_eq_zero hx)).symm⟩
  subst hm
  rw [← Nat.shiftLeft_eq]
  exact shiftLeft_lor_eq_add k m y hy

theorem and_63 (x : Nat) : x &&& 63 = x % 64 := by
  have h := Nat.and_pow_two_sub_one_eq_mod x 6
  norm_num at h
  exact h

theorem and_15 (x : Nat) : x &&& 15 = x % 16 := by
  have h := Nat.and_pow_two_sub_one_eq_mod x 4
  norm_num at h
  exact h

theorem and_3 (x : Nat) : x &&& 3 = x % 4 := by
  have h := Nat.and_pow_two_sub_one_eq_mod x 2
  norm_num at h
  exact h

theorem g24_eq (a b c : Nat) (ha : a < 256) (hb : b < 256) (hc : c < 256) :
    a <<< 16 ||| b <<< 8 ||| c = a * 65536 + b * 256 + c := by
  rw [Nat.shiftLeft_eq, Nat.shiftLeft_eq]
  norm_num
  rw [lor_eq_add_of_mod (a * 65536) (b * 256) 16 (by omega) (by omega)]
  rw [lor_eq_add_of_mod (a * 65536 + b * 256) c 8 (by omega) (by omega)]

theorem base64_group_eq (a b c : Nat) (ha : a < 256) (hb : b < 256)
    (hc : c < 256) :
    (a <<< 16 ||| b <<< 8 ||| c) >>> 18 &&& 63 = a >>> 2 ∧
    (a <<< 16 ||| b <<< 8 ||| c) >>> 12 &&& 63 =
      (a &&& 3) <<< 4 ||| b >>> 4 ∧
    (a <<< 16 ||| b <<< 8 ||| c) >>> 6 &&& 63 =
      (b &&& 15) <<< 2 ||| c >>> 6 ∧
    (a <<< 16 ||| b <<< 8 ||| c) &&& 63 = c &&& 63 := by
  rw [g24_eq a b c ha hb hc]
  refine ⟨?_, ?_, ?_, ?_⟩
  · rw [Nat.shiftRight_eq_div_pow, Nat.shiftRight_eq_div_pow, and_63]
    norm_num
    omega
  · rw [Nat.shiftRight_eq_div_pow, Nat.shiftRight_eq_div_pow, and_63,
      and_3, Nat.shiftLeft_eq,
      lor_eq_add_of_mod (a % 4 * 2 ^ 4) (b / 2 ^ 4) 4 (by omega)
        (by omega)]
    norm_num
    omega
  · rw [Nat.shiftRight_eq_div_pow, Nat.shiftRight_eq_div_pow, and_63,
      and_15, Nat.shiftLeft_eq,
      lor_eq_add_of_mod (b % 16 * 2 ^ 2) (c / 2 ^ 6) 2 (by omega)
        (by omega)]
    norm_num
    omega
  · rw [and_63, and_63]
    omega


theorem take_succ3 (n a b c : Nat) (l : List Nat) :
    (a :: b :: c :: l).take (n + 3) = a :: b :: c :: l.take n := rfl

theorem replicate_shift4 (e1 e2 e3 e4 : Nat) (mg tail : List Nat)
    (D : Nat) :
    (e1 :: e2 :: e3 :: e4 :: mg) ++ tail ++
      List.replicate
        (D + 4 - ((e1 :: e2 :: e3 :: e4 :: mg) ++ tail).length) 61 =
    e1 :: e2 :: e3 :: e4 ::
      (mg ++ tail ++ List.replicate (D - (mg ++ tail).length) 61) := by
  simp only [List.cons_append, List.length_cons, List.length_append]
  have hc : D + 4 - (mg.length + tail.length + 1 + 1 + 1 + 1) =
      D - (mg.length + tail.length) := by omega
  rw [hc]

theorem getD_cons3 (a b c : Nat) (l : List Nat) (n : Nat) :
    (a :: b :: c :: l).getD (n + 1 + 1 + 1) 0 = l.getD n 0 := by
  simp [List.getD_cons_succ]

/-- Unfolding `encode_base64` by one full 3-byte group. -/
theorem encode_base64_cons3 (a b c : Nat) (rest : List Nat) :
    encode_base64 (a :: b :: c :: rest) =
      enc ((a <<< 16 ||| b <<< 8 ||| c) >>> 18 &&& 63) ::
      enc ((a <<< 16 ||| b <<< 8 ||| c) >>> 12 &&& 63) ::
      enc ((a <<< 16 ||| b <<< 8 ||| c) >>> 6 &&& 63) ::
      enc ((a <<< 16 ||| b <<< 8 ||| c) &&& 63) ::
      encode_base64 rest := by
  simp only [encode_base64, List.length_cons]
  have hmod : (rest.length + 1 + 1 + 1) % 3 = rest.length % 3 := by omega
  have htake : rest.length + 1 + 1 + 1 - rest.length % 3 =
      (rest.length - rest.length % 3) + 3 := by omega
  have hdiv : (rest.length + 1 + 1 + 1 + 2) / 3 * 4 =
      (rest.length + 2) / 3 * 4 + 4 := by omega
  rw [hmod, htake, hdiv, take_succ3]
  simp only [mainGroups]
  have h3 : rest.length % 3 = 0 ∨ rest.length % 3 = 1 ∨
      rest.length % 3 = 2 := by omega
  rcases h3 with h | h | h
  · rw [h]
    simp only [eq_self_iff_true, if_true, Nat.reduceEqDiff, if_false]
    exact replicate_shift4 _ _ _ _ _ _ _
  · rw [h]
    simp only [eq_self_iff_true, if_true, Nat.reduceEqDiff, if_false]
    have hg1 : (a :: b :: c :: rest).getD (rest.length + 1 + 1 + 1 - 1) 0 =
        rest.getD (rest.length - 1) 0 := by
      rw [show rest.length + 1 + 1 + 1 - 1 = (rest.length - 1) + 1 + 1 + 1
        from by omega]
      exact getD_cons3 a b c rest (rest.length - 1)
    rw [hg1]
    exact replicate_shift4 _ _ _ _ _ _ _
  · rw [h]
    simp only [eq_self_iff_true, if_true, Nat.reduceEqDiff, if_false]
    have hg1 : (a :: b :: c :: rest).getD (rest.length + 1 + 1 + 1 - 1) 0 =
        rest.getD (rest.length - 1) 0 := by
      rw [show rest.length + 1 + 1 + 1 - 1 = (rest.length - 1) + 1 + 1 + 1
        from by omega]
      exact getD_cons3 a b c rest (rest.length - 1)
    have hg2 : (a :: b :: c :: rest).getD (rest.length + 1 + 1 + 1 - 2) 0 =
        rest.getD (rest.length - 2) 0 := by
      rw [show rest.length + 1 + 1 + 1 - 2 = (rest.length - 2) + 1 + 1 + 1
        from by omega]
      exact getD_cons3 a b c rest (rest.length - 2)
    rw [hg1, hg2]
    exact replicate_shift4 _ _ _ _ _ _ _


theorem base64_group_eq0 (a b : Nat) (ha : a < 256) (hb : b < 256) :
    (a <<< 16 ||| b <<< 8) >>> 18 &&& 63 = a >>> 2 ∧
    (a <<< 16 ||| b <<< 8) >>> 12 &&& 63 = (a &&& 3) <<< 4 ||| b >>> 4 ∧
    (a <<< 16 ||| b <<< 8) >>> 6 &&& 63 = (b &&& 15) <<< 2 := by
  have h := base64_group_eq a b 0 ha hb (by norm_num)
  simp only [Nat.or_zero, Nat.zero_shiftRight] at h
  exact ⟨h.1, h.2.1, h.2.2.1⟩

theorem base64_group_eq00 (a : Nat) (ha : a < 256) :
    (a <<< 16) >>> 18 &&& 63 = a >>> 2 ∧
    (a <<< 16) >>> 12 &&& 63 = (a &&& 3) <<< 4 := by
  have h := base64_group_eq0 a 0 ha (by norm_num)
  simp only [Nat.zero_shiftLeft, Nat.or_zero, Nat.zero_shiftRight] at h
  exact ⟨h.1, h.2.1⟩

/-- `encode_base64` agrees with the textbook base64 recursion on byte
inputs. -/
theorem encode_eq_spec : ∀ (data : List Nat), (∀ x ∈ data, x < 256) →
    encode_base64 data = base64Spec data
  | [], _ => rfl
  | [a], h => by
    have ha : a < 256 := h a (by simp)
    have h00 := base64_group_eq00 a ha
    simp only [encode_base64, base64Spec, List.length_cons,
      List.length_nil, mainGroups, List.getD]
    norm_num
    rw [h00.1, h00.2]
    exact ⟨rfl, rfl, rfl⟩
  | [a, b], h => by
    have ha : a < 256 := h a (by simp)
    have hb : b < 256 := h b (by simp)
    have h0 := base64_group_eq0 a b ha hb
    simp only [encode_base64, base64Spec, List.length_cons,
      List.length_nil, mainGroups, List.getD]
    norm_num
    rw [h0.1, h0.2.1, h0.2.2]
    exact ⟨rfl, rfl, rfl⟩
  | a :: b :: c :: rest, h => by
    have ha : a < 256 := h a (by simp)
    have hb : b < 256 := h b (by simp)
    have hc : c < 256 := h c (by simp)
    have hg := base64_group_eq a b c ha hb hc
    rw [encode_base64_cons3, hg.1, hg.2.1, hg.2.2.1, hg.2.2.2]
    have hrest : ∀ x ∈ rest, x < 256 := by
      intro x hx
      exact h x (by simp [hx])
    rw [encode_eq_spec rest hrest]
    rfl

theorem sha1_digest_check :
    sha1 (sampleNonce ++ wsGuidBytes) =
      [179, 122, 79, 44, 192, 98, 79, 22, 144, 246, 70, 6, 207, 56,
       89, 69, 178, 190, 196, 234] := by decide

/-- C7: `hash_key` is base64 of the SHA-1 digest of the key followed by
the GUID, where the base64 step agrees with RFC 4648 standard base64 on
all byte inputs; in particular, on the sample nonce it yields the
expected accept value. -/
theorem ws_C7_hash_key :
    (∀ key : List Nat,
      hash_key key = encode_base64 (sha1 (key ++ wsGuidBytes))) ∧
    (∀ data : List Nat, (∀ x ∈ data, x < 256) →
      encode_base64 data = base64Spec data) ∧
    hash_key sampleNonce = sampleAccept := by
  refine ⟨fun _ => rfl, encode_eq_spec, ?_⟩
  decide

/-- C7 witness: the base64 refinement applied to a concrete byte
string. -/
theorem ws_C7_hash_key_witness :
    encode_base64 [104, 105, 33] = base64Spec [104, 105, 33] :=
  ws_C7_hash_key.2.1 [104, 105, 33] (by decide)


/-! ### Claim C9: stale-command dropping in the event loop
(io.rs: Handler::handle_queue, communication.rs: Sender) -/

/-- C9: a queued send command whose token has no resident connection,
or whose stamp differs from the resident connection's
`connection_id`, is dropped with every connection left unchanged; a
`Sender` stamps each command with the `connection_id` it was created
with. -/
theorem ws_C9_stale_commands :
    (∀ (conns : List (Option Conn)) (cmd : Command),
      conns.getD cmd.token none = none → handleQueue conns cmd = conns) ∧
    (∀ (conns : List (Option Conn)) (cmd : Command) (conn : Conn),
      conns.getD cmd.token none = some conn →
      conn.connectionId ≠ cmd.connectionId →
      handleQueue conns cmd = conns) ∧
    (∀ (s : Sender) (sig : Signal),
      (s.sendCmd sig).connectionId = s.connectionId ∧
      (s.sendCmd sig).token = s.token) := by
  refine ⟨?_, ?_, fun s sig => ⟨rfl, rfl⟩⟩
  · intro conns cmd h
    unfold handleQueue
    rw [h]
  · intro conns cmd conn h hne
    unfold handleQueue
    rw [h]
    exact if_neg hne

/-- C9 witness: a one-slot slab holding a connection with stamp 5
absorbs no change from a ping command stamped 7, and none from a
command aimed at an empty slot. -/
theorem ws_C9_stale_commands_witness :
    handleQueue
      [some { connectionId := 5, kind := .Server, fragSize := 10,
              maskGen := [1, 2, 3, 4], closing := false,
              outFrames := [] }]
      { token := 0, connectionId := 7, signal := .ping [1] } =
    [some { connectionId := 5, kind := .Server, fragSize := 10,
            maskGen := [1, 2, 3, 4], closing := false,
            outFrames := [] }] ∧
    handleQueue []
      { token := 3, connectionId := 7, signal := .pong [] } = [] :=
  ⟨ws_C9_stale_commands.2.1 _ _ _ rfl (by decide),
   ws_C9_stale_commands.1 _ _ rfl⟩


/-! ### Claim C10: the capped output buffer never exceeds its maximum
(capped_buffer.rs) -/

theorem write_eq (c : CappedBuffer) (data : List Nat) :
    c.write data = ({ c with buf := c.buf ++ data.take c.remaining },
      min data.length c.remaining) := by
  unfold CappedBuffer.write
  by_cases h : data.length > c.remaining
  · rw [if_pos h]
    simp only [List.length_take]
    rw [Nat.min_comm]
  · rw [if_neg h]
    rw [List.take_of_length_le (by omega)]
    rw [Nat.min_eq_left (by omega)]

theorem applyOp_preserves (c : CappedBuffer) (op : BufOp)
    (h : c.buf.length ≤ c.max) :
    (applyOp c op).buf.length ≤ c.max ∧ (applyOp c op).max = c.max := by
  cases op with
  | write data =>
    have he : applyOp c (.write data) = (c.write data).1 := rfl
    rw [he, write_eq]
    refine ⟨?_, rfl⟩
    show (c.buf ++ data.take c.remaining).length ≤ c.max
    rw [List.length_append, List.length_take]
    unfold CappedBuffer.remaining
    omega
  | writeAll data =>
    by_cases hfit : data.length ≤ c.remaining
    · have he : applyOp c (.writeAll data) =
          { c with buf := c.buf ++ data } := by
        show (match c.writeAll data with
          | Except.ok c2 => c2
          | Except.error _ => c) = { c with buf := c.buf ++ data }
        unfold CappedBuffer.writeAll
        rw [if_pos hfit]
      rw [he]
      refine ⟨?_, rfl⟩
      show (c.buf ++ data).length ≤ c.max
      rw [List.length_append]
      unfold CappedBuffer.remaining at hfit
      omega
    · have he : applyOp c (.writeAll data) = c := by
        show (match c.writeAll data with
          | Except.ok c2 => c2
          | Except.error _ => c) = c
        unfold CappedBuffer.writeAll
        rw [if_neg hfit]
      rw [he]
      exact ⟨h, rfl⟩
  | shift n =>
    by_cases hn : n ≥ c.buf.length
    · have he : applyOp c (.shift n) = { c with buf := [] } := by
        show c.shift n = { c with buf := [] }
        unfold CappedBuffer.shift
        rw [if_pos hn]
      rw [he]
      exact ⟨by simp, rfl⟩
    · have he : applyOp c (.shift n) = { c with buf := c.buf.drop n } := by
        show c.shift n = { c with buf := c.buf.drop n }
        unfold CappedBuffer.shift
        rw [if_neg hn]
      rw [he]
      refine ⟨?_, rfl⟩
      show (c.buf.drop n).length ≤ c.max
      rw [List.length_drop]
      omega

theorem applyOps_inv : ∀ (ops : List BufOp) (c : CappedBuffer),
    c.buf.length ≤ c.max →
    (applyOps c ops).max = c.max ∧ (applyOps c ops).buf.length ≤ c.max
  | [], _, h => ⟨rfl, h⟩
  | op :: ops, c, h => by
    have hstep := applyOp_preserves c op h
    have ih := applyOps_inv ops (applyOp c op)
      (by rw [hstep.2]; exact hstep.1)
    have heq : applyOps c (op :: ops) = applyOps (applyOp c op) ops := rfl
    rw [heq]
    exact ⟨by rw [ih.1, hstep.2], by rw [hstep.2] at ih; exact ih.2⟩

/-- C10: across every sequence of `write` / `write_all` / `shift`
operations on a fresh buffer the stored length never exceeds `max`;
`write` appends the input truncated to the remaining space and returns
the number of bytes kept; an oversized `write_all` fails and leaves
the buffer unchanged, a fitting one appends the whole input. -/
theorem ws_C10_capped_buffer :
    (∀ (capacity mx : Nat) (ops : List BufOp),
      (applyOps (CappedBuffer.new capacity mx) ops).buf.length ≤ mx) ∧
    (∀ (c : CappedBuffer) (data : List Nat),
      c.write data = ({ c with buf := c.buf ++ data.take c.remaining },
        min data.length c.remaining)) ∧
    (∀ (c : CappedBuffer) (data : List Nat), c.remaining < data.length →
      c.writeAll data = .error () ∧ applyOp c (.writeAll data) = c) ∧
    (∀ (c : CappedBuffer) (data : List Nat), data.length ≤ c.remaining →
      c.writeAll data = .ok { c with buf := c.buf ++ data }) := by
  refine ⟨?_, write_eq, ?_, ?_⟩
  · intro capacity mx ops
    have h := applyOps_inv ops (CappedBuffer.new capacity mx)
      (by simp [CappedBuffer.new])
    exact h.2
  · intro c data h
    have herr : c.writeAll data = .error () := by
      unfold CappedBuffer.writeAll
      rw [if_neg (by omega)]
    refine ⟨herr, ?_⟩
    show (match c.writeAll data with
      | Except.ok c2 => c2
      | Except.error _ => c) = c
    rw [herr]
  · intro c data h
    unfold CappedBuffer.writeAll
    rw [if_pos h]

/-- C10 witness: on a buffer capped at 5, an oversized `write` keeps
only the remaining space and reports 5 bytes written, an oversized
`write_all` fails, and a mixed operation sequence stays within the
cap. -/
theorem ws_C10_capped_buffer_witness :
    (applyOps (CappedBuffer.new 2 5)
      [.write [1, 2, 3, 4, 5, 6, 7], .shift 2,
       .writeAll [8, 9, 10, 11], .writeAll [8, 9]]).buf.length ≤ 5 ∧
    (CappedBuffer.new 2 5).write [1, 2, 3, 4, 5, 6, 7] =
      ({ buf := [1, 2, 3, 4, 5], max := 5 }, 5) ∧
    CappedBuffer.writeAll { buf := [1, 2, 3], max := 5 }
      [4, 5, 6] = .error () :=
  ⟨ws_C10_capped_buffer.1 2 5 _,
   by
    have h := ws_C10_capped_buffer.2.1 (CappedBuffer.new 2 5)
      [1, 2, 3, 4, 5, 6, 7]
    rw [h]
    rfl,
   (ws_C10_capped_buffer.2.2.1 { buf := [1, 2, 3], max := 5 }
      [4, 5, 6] (by decide)).1⟩

end WS
